import Mathlib

/-!
Verification of the reconciliation / consensus-merge core of the repository
(`src/core/comparison.py` and `src/core/llm.py`).

The Python code is shallowly embedded over `String`, `Option String`, exact
fractions (`Q`) and association lists:

* dictionary fields are modelled through their `d.get(key)` view, so a key
  that is absent and a key that is present with value `None` are both
  `Option.none` (the one place where the distinction matters, the
  `s['seller_nif']` subscript in the sale-breakdown rule, is modelled as a
  fallible access in the `Except` monad);
* Python `set` iteration order is unspecified; sets of strings are modelled
  as first-occurrence-ordered duplicate-free lists, and no proved statement
  depends on the chosen order beyond membership;
* `difflib.SequenceMatcher(None, a, b).ratio()` is an opaque similarity
  oracle; the embedding takes it as an explicit function parameter
  `ratio : String → String → Q` and theorems quantify over it;
* Python's Unicode case operations are modelled over ASCII plus the Spanish
  alphabet, which covers all data the code manipulates.
-/

namespace Spec2Proof

/-- Characters stripped by Python `str.strip()` (the ASCII whitespace set). -/
def pyIsSpaceChar (c : Char) : Bool :=
  c = ' ' || c = '\t' || c = '\n' || c = '\r' || c = Char.ofNat 11 || c = Char.ofNat 12

def dropLeadingSpaces : List Char → List Char
  | [] => []
  | c :: cs => if pyIsSpaceChar c then dropLeadingSpaces cs else c :: cs

/-- Python `str.strip()`. -/
def pyStrip (s : String) : String :=
  ((dropLeadingSpaces ((dropLeadingSpaces s.toList).reverse)).reverse).asString

/-- Python `str.upper()`, modelled for ASCII and the Spanish alphabet. -/
def pyUpperChar (c : Char) : Char :=
  if c = 'á' then 'Á' else if c = 'é' then 'É' else if c = 'í' then 'Í'
  else if c = 'ó' then 'Ó' else if c = 'ú' then 'Ú' else if c = 'ü' then 'Ü'
  else if c = 'ñ' then 'Ñ' else c.toUpper

def pyUpper (s : String) : String :=
  (s.toList.map pyUpperChar).asString

/-- Python `str.lower()`, modelled for ASCII and the Spanish alphabet. -/
def pyLowerChar (c : Char) : Char :=
  if c = 'Á' then 'á' else if c = 'É' then 'é' else if c = 'Í' then 'í'
  else if c = 'Ó' then 'ó' else if c = 'Ú' then 'ú' else if c = 'Ü' then 'ü'
  else if c = 'Ñ' then 'ñ' else c.toLower

def pyLower (s : String) : String :=
  (s.toList.map pyLowerChar).asString

/-- Character-list prefix test (kernel-computable). -/
def isPrefixL : List Char → List Char → Bool
  | [], _ => true
  | _ :: _, [] => false
  | a :: as, b :: bs => a = b && isPrefixL as bs

def containsSubAux (n : List Char) : List Char → Bool
  | [] => isPrefixL n []
  | c :: rest => isPrefixL n (c :: rest) || containsSubAux n rest

/-- Python substring test `needle in hay`. -/
def containsSub (needle hay : String) : Bool :=
  containsSubAux needle.toList hay.toList

/-- Split a string at every character satisfying `p` (the behaviour of
`str.split`-style tokenisation used below; kernel-computable). -/
def splitCharsAux (p : Char → Bool) (cur : List Char) : List Char → List String
  | [] => [cur.reverse.asString]
  | c :: rest =>
    if p c then cur.reverse.asString :: splitCharsAux p [] rest
    else splitCharsAux p (c :: cur) rest

def splitChars (p : Char → Bool) (s : String) : List String :=
  splitCharsAux p [] s.toList

/-- Truthiness of a Python value seen through its `Option String` view:
`None` and `''` are falsy. -/
def truthyOpt (o : Option String) : Bool :=
  match o with
  | none => false
  | some s => s ≠ ""

/-- Python `a or b` on two string-or-None values. -/
def pyOrOpt (a b : Option String) : Option String :=
  if truthyOpt a then a else b

/-- Python `str(x)` for a string-or-None value. -/
def strOpt (o : Option String) : String :=
  match o with
  | none => "None"
  | some s => s

/-- A single quote character, written without an apostrophe in the source. -/
def sq : String := "\x27"

/-- Python `str` of a list of strings, e.g. `[\x27A\x27, \x27B\x27]`. -/
def strList (l : List String) : String :=
  "[" ++ String.intercalate ", " (l.map (fun s => sq ++ s ++ sq)) ++ "]"

/-- Python `str` of a set of strings (modelled in list order). -/
def setStr (l : List String) : String :=
  match l with
  | [] => "set()"
  | _ => "\x7b" ++ String.intercalate ", " (l.map (fun s => sq ++ s ++ sq)) ++ "\x7d"

/-- Deduplicate keeping first occurrences, in order (a Python `set` built by
insertion, or the key order of a `dict`). -/
def pyDedupAux (seen : List String) : List String → List String
  | [] => []
  | a :: rest =>
    if a ∈ seen then pyDedupAux seen rest else a :: pyDedupAux (a :: seen) rest

def pyDedupKeys (l : List String) : List String := pyDedupAux [] l

/-- Insert-or-overwrite into an insertion-ordered association list
(Python `dict` assignment semantics). -/
def dictInsert {α : Type} (d : List (String × α)) (k : String) (v : α) :
    List (String × α) :=
  match d with
  | [] => [(k, v)]
  | (k0, v0) :: rest =>
    if k0 = k then (k0, v) :: rest else (k0, v0) :: dictInsert rest k v

def buildDictD {α : Type} (pairs : List (String × α)) : List (String × α) :=
  pairs.foldl (fun d p => dictInsert d p.1 p.2) []

/-- First-match association lookup (Python `dict.get`). -/
def lookupAssoc {α : Type} (d : List (String × α)) (k : String) : Option α :=
  match d.find? (fun p => p.1 = k) with
  | some p => some p.2
  | none => none

/-- Ordered concatenation of the images of a list (a Python nested loop). -/
def concatMap {α β : Type} (f : α → List β) : List α → List β
  | [] => []
  | a :: l => f a ++ concatMap f l

/-- Sequential, fail-fast mapping in the `Except` monad (a Python loop or
comprehension whose body may raise). -/
def mapMExcept {α β : Type} (f : α → Except String β) : List α → Except String (List β)
  | [] => Except.ok []
  | a :: l => do
    let b ← f a
    let bs ← mapMExcept f l
    Except.ok (b :: bs)

/-- Exact rational arithmetic, as explicit fractions compared by
cross-multiplication (Python's `Decimal`/`float` comparisons are exact value
comparisons; every denominator the code builds is positive). -/
structure Q where
  num : Int
  den : Int
deriving DecidableEq, Repr

def qOfInt (n : Int) : Q := ⟨n, 1⟩

def qSub (a b : Q) : Q := ⟨a.num * b.den - b.num * a.den, a.den * b.den⟩

def qAbs (a : Q) : Q := ⟨|a.num|, |a.den|⟩

/-- Value comparison `a ≤ b` (for positive denominators). -/
def qLe (a b : Q) : Bool := a.num * b.den ≤ b.num * a.den

/-- Value comparison `a < b` (for positive denominators). -/
def qLt (a b : Q) : Bool := a.num * b.den < b.num * a.den

/-- Value equality (for positive denominators). -/
def qEq (a b : Q) : Bool := a.num * b.den = b.num * a.den

def qIsZero (a : Q) : Bool := a.num = 0

/-! ## Embedding of `src/core/comparison.py` -/

/-- `Severity` enum of `comparison.py`. -/
inductive Severity where
  | ok
  | warning
  | error
deriving DecidableEq, Repr

/-- `normalize_catastral_ref`: upper-case, strip, remove whitespace and
dashes; falsy input gives `""`. -/
def normalize_catastral_ref (r : Option String) : String :=
  match r with
  | none => ""
  | some s =>
    if s = "" then ""
    else ((pyStrip (pyUpper s)).toList.filter
      (fun c => !(pyIsSpaceChar c || c = '-'))).asString

/-- `normalize_nif`: upper-case, strip, then remove every dash and space. -/
def normalize_nif (nif : Option String) : String :=
  match nif with
  | none => ""
  | some s =>
    if s = "" then ""
    else ((pyStrip (pyUpper s)).toList.filter
      (fun c => !(c = '-' || c = ' '))).asString

/-- `normalize_text`: upper-case, strip, collapse whitespace runs to one
space (realised as split-filter-join, which is equivalent). -/
def normalize_text (t : Option String) : String :=
  match t with
  | none => ""
  | some s =>
    if s = "" then ""
    else String.intercalate " " ((splitChars pyIsSpaceChar (pyUpper s)).filter (· ≠ ""))

def natOfDigits (cs : List Char) : Nat :=
  cs.foldl (fun n c => 10 * n + (c.toNat - 48)) 0

def allDigits (cs : List Char) : Bool :=
  cs.all (fun c => c.isDigit)

/-- `strptime` field `%d`/`%m`: one or two digits within the given bounds. -/
def parseDateField (lo hi : Nat) (s : String) : Option Nat :=
  let cs := s.toList
  if allDigits cs ∧ (cs.length = 1 ∨ cs.length = 2) then
    let v := natOfDigits cs
    if lo ≤ v ∧ v ≤ hi then some v else none
  else none

/-- `strptime` field `%Y`: exactly four digits, year at least 1. -/
def parseYearField (s : String) : Option Nat :=
  let cs := s.toList
  if allDigits cs ∧ cs.length = 4 then
    let v := natOfDigits cs
    if 1 ≤ v then some v else none
  else none

def isLeapYear (y : Nat) : Bool :=
  (y % 4 = 0 ∧ y % 100 ≠ 0) ∨ y % 400 = 0

def daysInMonth (y m : Nat) : Nat :=
  if m = 2 then (if isLeapYear y then 29 else 28)
  else if m = 4 ∨ m = 6 ∨ m = 9 ∨ m = 11 then 30
  else 31

def padNat (width n : Nat) : String :=
  let s := toString n
  (List.replicate (width - s.length) '0').asString ++ s

def isoDate (y m d : Nat) : String :=
  padNat 4 y ++ "-" ++ padNat 2 m ++ "-" ++ padNat 2 d

/-- One `strptime`+`strftime` attempt for a day/month/year layout split on
`sep` (formats `%d/%m/%Y`, `%d-%m-%Y`, `%d.%m.%Y`). -/
def tryDMY (sep : Char) (s : String) : Option String :=
  match splitChars (· = sep) s with
  | [d, m, y] =>
    match parseDateField 1 31 d, parseDateField 1 12 m, parseYearField y with
    | some dv, some mv, some yv =>
      if dv ≤ daysInMonth yv mv then some (isoDate yv mv dv) else none
    | _, _, _ => none
  | _ => none

/-- One `strptime`+`strftime` attempt for the `%Y-%m-%d` layout. -/
def tryYMD (s : String) : Option String :=
  match splitChars (· = '-') s with
  | [y, m, d] =>
    match parseYearField y, parseDateField 1 12 m, parseDateField 1 31 d with
    | some yv, some mv, some dv =>
      if dv ≤ daysInMonth yv mv then some (isoDate yv mv dv) else none
    | _, _, _ => none
  | _ => none

/-- `normalize_date`: try `%d/%m/%Y`, `%Y-%m-%d`, `%d-%m-%Y`, `%d.%m.%Y` in
order, canonicalise to ISO; otherwise return the stripped input. -/
def normalize_date (d : Option String) : String :=
  match d with
  | none => ""
  | some s0 =>
    if s0 = "" then ""
    else
      let s := pyStrip s0
      match tryDMY '/' s with
      | some r => r
      | none =>
        match tryYMD s with
        | some r => r
        | none =>
          match tryDMY '-' s with
          | some r => r
          | none =>
            match tryDMY '.' s with
            | some r => r
            | none => s

/-- A `decimal.Decimal` value: its canonical `str()` rendering together with
its rational value.  The embedding covers plain decimal literals
(optional sign, digits, at most one dot); exponent and special forms the
`decimal` module also accepts do not occur in this code's data. -/
structure Dec where
  lit : String
  val : Q
deriving DecidableEq, Repr

def dropLeadingZeros : List Char → List Char
  | [] => []
  | c :: cs => if c = '0' then dropLeadingZeros cs else c :: cs

/-- `Decimal(s)` on an already separator-cleaned string: `none` models
`decimal.InvalidOperation`. -/
def decOfCleaned (s : String) : Option Dec :=
  let cs := s.toList
  let signBody : Bool × List Char :=
    match cs with
    | '-' :: rest => (true, rest)
    | '+' :: rest => (false, rest)
    | _ => (false, cs)
  let neg := signBody.1
  let body := signBody.2
  let parts := splitChars (· = '.') body.asString
  let ipfp : Option (List Char × List Char) :=
    match parts with
    | [ip] => some (ip.toList, [])
    | [ip, fp] => some (ip.toList, fp.toList)
    | _ => none
  match ipfp with
  | none => none
  | some (ip, fp) =>
    if allDigits ip ∧ allDigits fp ∧ (ip ≠ [] ∨ fp ≠ []) then
      let scale : Nat := 10 ^ fp.length
      let mag : Int := (natOfDigits ip : Int) * (scale : Int) + (natOfDigits fp : Int)
      let ipCanon := match dropLeadingZeros ip with
        | [] => "0"
        | l => l.asString
      let lit := (if neg then "-" else "") ++ ipCanon ++
        (if fp = [] then "" else "." ++ fp.asString)
      some ⟨lit, ⟨if neg then -mag else mag, (scale : Int)⟩⟩
    else none

/-- `parse_decimal`: `None`/`''` give `None`; with both `.` and `,` present
every dot is removed and the comma becomes the decimal point (Spanish
format); with only `,` present the comma becomes the decimal point. -/
def parse_decimal (v : Option String) : Option Dec :=
  match v with
  | none => none
  | some s =>
    if s = "" then none
    else
      let t := pyStrip s
      let cleaned :=
        if t.toList.contains ',' ∧ t.toList.contains '.' then
          ((t.toList.filter (· ≠ '.')).map (fun c => if c = ',' then '.' else c)).asString
        else if t.toList.contains ',' then
          (t.toList.map (fun c => if c = ',' then '.' else c)).asString
        else t
      decOfCleaned cleaned

/-- `compare_decimals`: `True` (no issue) when either side is missing or
unparseable or parses to zero; otherwise compare within `tolerance`. -/
def compare_decimals (v1 v2 : Option String) (tolerance : Q) : Bool :=
  match parse_decimal v1, parse_decimal v2 with
  | some d1, some d2 =>
    if qIsZero d1.val ∨ qIsZero d2.val then true
    else qLe (qAbs (qSub d1.val d2.val)) tolerance
  | _, _ => true

/-- `fuzzy_match_catastral`, with `difflib.SequenceMatcher.ratio` abstracted
as the explicit oracle `ratio`. -/
def fuzzy_match_catastral (ratio : String → String → Q)
    (ref1 ref2 : String) (threshold : Q) : Bool :=
  if ref1 = "" ∨ ref2 = "" then false
  else
    let norm1 := normalize_catastral_ref (some ref1)
    let norm2 := normalize_catastral_ref (some ref2)
    if norm1 = norm2 then true
    else if norm1 = "" ∨ norm2 = "" then false
    else if qLe threshold (ratio norm1 norm2) then true
    else
      let minLen := min norm1.length norm2.length
      if 14 ≤ minLen ∧ norm1.toList.take 14 = norm2.toList.take 14 then true
      else false

/-- A seller/buyer entry, through the `d.get(key)` view of the fields the
code reads. -/
structure PersonRec where
  nif : Option String := none
  seller_nif : Option String := none
  buyer_nif : Option String := none
deriving DecidableEq, Repr

/-- A `sale_breakdown` entry.  `seller_nif = none` models an entry without
the `seller_nif` key, which the subscript `s[...]` turns into a `KeyError`. -/
structure SBEntry where
  property_id : Option String := none
  seller_nif : Option String := none
  percentage_sold : Option String := none
deriving DecidableEq, Repr

/-- A property record (deed side or tax-form side), through the `d.get(key)`
view of the fields the code reads. -/
structure PropRec where
  id : Option String := none
  ref_catastral : Option String := none
  declared_value : Option String := none
  address : Option String := none
  direccion : Option String := none
  type : Option String := none
  uso : Option String := none
  property_type : Option String := none
  surface_area : Option String := none
  superficie : Option String := none
  superficie_construida : Option String := none
  superficie_util : Option String := none
  valor_catastral : Option String := none
  ownership_distribution : List (String × String) := []
deriving DecidableEq, Repr

/-- A parsed document (escritura or tax form).  `notary_name_nested` is the
`record.get('notary', {}).get('name')` view of the nested notary dict. -/
structure SourceRec where
  document_number : Option String := none
  date_of_sale : Option String := none
  notary_name_nested : Option String := none
  notary_name : Option String := none
  protocol_number : Option String := none
  sellers : List PersonRec := []
  buyers : List PersonRec := []
  properties : List PropRec := []
  sale_breakdown : List SBEntry := []
deriving DecidableEq, Repr

/-- The input of `compare_escritura_with_tax_forms`: a dict with the
`escrituras` and `tax_forms` keys. -/
structure CompInput where
  escrituras : List SourceRec
  tax_forms : List SourceRec
deriving DecidableEq, Repr

/-- One issue dict as appended by `PropertyComparisonReport.add_issue`
(values already passed through `str()`). -/
structure Issue where
  code : String
  severity : Severity
  field : String
  escritura_value : String
  tax_form_value : String
  message : String
  form_id : Option String
deriving DecidableEq, Repr

/-- `PropertyComparisonReport`. -/
structure Report where
  property_id : String
  ref_catastral : String
  status : Severity
  matched_forms : List String
  issues : List Issue
deriving DecidableEq, Repr

/-- `PropertyComparisonReport.add_issue`: append the issue and raise the
status (`error` wins outright; `warning` only upgrades an `ok`). -/
def add_issue (r : Report) (i : Issue) : Report :=
  { r with
    issues := r.issues ++ [i]
    status :=
      if i.severity = Severity.error then Severity.error
      else if i.severity = Severity.warning ∧ r.status = Severity.ok then Severity.warning
      else r.status }

/-- One flattened tax-form property (`tax_properties` entries). -/
structure TaxItem where
  form_id : String
  form_data : SourceRec
  property : PropRec
deriving DecidableEq, Repr

/-- `form.get('document_number') or f"form_{form_idx}"`. -/
def form_id_of (idx : Nat) (form : SourceRec) : String :=
  match form.document_number with
  | some s => if s = "" then "form_" ++ toString idx else s
  | none => "form_" ++ toString idx

/-- The `tax_properties` flattening loop. -/
def taxItems (tax_forms : List SourceRec) : List TaxItem :=
  concatMap
    (fun p => p.2.properties.map (fun pr => ⟨form_id_of p.1 p.2, p.2, pr⟩))
    tax_forms.enum

/-- Append an item to its group, keeping dict insertion order
(`tax_by_catastral[ref].append(item)`). -/
def insertGroup (gs : List (String × List TaxItem)) (k : String) (it : TaxItem) :
    List (String × List TaxItem) :=
  match gs with
  | [] => [(k, [it])]
  | (k0, l0) :: rest =>
    if k0 = k then (k0, l0 ++ [it]) :: rest else (k0, l0) :: insertGroup rest k it

/-- The `tax_by_catastral` grouping: keyed by normalised cadastral reference,
skipping properties whose reference normalises to the empty string. -/
def taxByCatastral (tax_forms : List SourceRec) : List (String × List TaxItem) :=
  (taxItems tax_forms).foldl
    (fun gs it =>
      let ref := normalize_catastral_ref it.property.ref_catastral
      if ref = "" then gs else insertGroup gs ref it)
    []

/-- `tax_by_catastral.get(ref, [])`. -/
def lookupGroups (gs : List (String × List TaxItem)) (k : String) : List TaxItem :=
  match gs.find? (fun g => g.1 = k) with
  | some g => g.2
  | none => []

/-- The match lookup for one deed-side property: exact index hit first, then
the first fuzzy-matching index key (the loop with `break`). -/
def propMatches (ratio : String → String → Q)
    (gs : List (String × List TaxItem)) (ref : String) : List TaxItem :=
  let exactMatches := lookupGroups gs ref
  if exactMatches.isEmpty ∧ ref ≠ "" then
    match gs.find? (fun g => fuzzy_match_catastral ratio ref g.1 ⟨85, 100⟩) with
    | some g => g.2
    | none => []
  else exactMatches

/-! ### The per-match field rules, in the order the code applies them.
Each helper returns the issues the corresponding block appends; `add_issue`
applies `str()` to the values, so the helpers pass `str`-rendered values. -/

/-- Date comparison with normalization. -/
def dateIssues (esc form : SourceRec) (fid : String) : List Issue :=
  let e := normalize_date esc.date_of_sale
  let t := normalize_date form.date_of_sale
  if e ≠ "" ∧ t ≠ "" ∧ e ≠ t then
    [⟨"DATE_MISMATCH", Severity.error, "date_of_sale",
      strOpt esc.date_of_sale, strOpt form.date_of_sale, "Date mismatch", some fid⟩]
  else []

/-- Declared value. -/
def valueIssues (prop tax_prop : PropRec) (fid : String) : List Issue :=
  if !compare_decimals prop.declared_value tax_prop.declared_value ⟨1, 100⟩ then
    [⟨"VALUE_MISMATCH", Severity.error, "declared_value",
      strOpt prop.declared_value, strOpt tax_prop.declared_value,
      "Declared value mismatch", some fid⟩]
  else []

/-- The deed-side seller NIF set (a Python set, modelled in first-occurrence
order). -/
def sellerSet (persons : List PersonRec) : List String :=
  pyDedupKeys (persons.map (fun s => normalize_nif (pyOrOpt s.seller_nif s.nif)))

def buyerSet (persons : List PersonRec) : List String :=
  pyDedupKeys (persons.map (fun b => normalize_nif (pyOrOpt b.buyer_nif b.nif)))

/-- The set difference `e_sellers - t_sellers - {''}`. -/
def sellerMissing (esc form : SourceRec) : List String :=
  (sellerSet esc.sellers).filter
    (fun x => !(sellerSet form.sellers).contains x ∧ x ≠ "")

def sellerIssue (esc form : SourceRec) (fid : String) : Issue :=
  ⟨"SELLER_MISMATCH", Severity.error, "sellers",
    strList (sellerSet esc.sellers), strList (sellerSet form.sellers),
    "Missing sellers: " ++ setStr (sellerMissing esc form), some fid⟩

/-- Sellers: one issue listing every deed-side NIF absent from the tax-form
side (set difference minus the empty string). -/
def sellerIssues (esc form : SourceRec) (fid : String) : List Issue :=
  if sellerMissing esc form ≠ [] then [sellerIssue esc form fid] else []

def buyerMissing (esc form : SourceRec) : List String :=
  (buyerSet esc.buyers).filter
    (fun x => !(buyerSet form.buyers).contains x ∧ x ≠ "")

def buyerIssue (esc form : SourceRec) (fid : String) : Issue :=
  ⟨"BUYER_MISMATCH", Severity.error, "buyers",
    strList (buyerSet esc.buyers), strList (buyerSet form.buyers),
    "Missing buyers: " ++ setStr (buyerMissing esc form), some fid⟩

/-- Buyers. -/
def buyerIssues (esc form : SourceRec) (fid : String) : List Issue :=
  if buyerMissing esc form ≠ [] then [buyerIssue esc form fid] else []

/-- Notary info (nested dict or flat key, combined with Python `or`). -/
def notaryIssues (esc form : SourceRec) (fid : String) : List Issue :=
  let e_raw := pyOrOpt esc.notary_name_nested esc.notary_name
  let t_raw := pyOrOpt form.notary_name_nested form.notary_name
  let e := normalize_text e_raw
  let t := normalize_text t_raw
  if e ≠ "" ∧ t ≠ "" ∧ e ≠ t then
    [⟨"NOTARY_MISMATCH", Severity.warning, "notary_name",
      strOpt e_raw, strOpt t_raw, "Notary name mismatch", some fid⟩]
  else []

/-- Protocol number. -/
def protocolIssues (esc form : SourceRec) (fid : String) : List Issue :=
  let e := normalize_text esc.protocol_number
  let t := normalize_text form.protocol_number
  if e ≠ "" ∧ t ≠ "" ∧ e ≠ t then
    [⟨"PROTOCOL_MISMATCH", Severity.error, "protocol_number",
      strOpt esc.protocol_number, strOpt form.protocol_number,
      "Protocol number mismatch", some fid⟩]
  else []

/-- Address: normalized equality, escalated to the similarity oracle with
threshold 0.8. -/
def addressIssues (ratio : String → String → Q)
    (prop tax_prop : PropRec) (fid : String) : List Issue :=
  let e_addr := normalize_text (pyOrOpt prop.address prop.direccion)
  let t_addr := normalize_text (pyOrOpt tax_prop.address tax_prop.direccion)
  if e_addr ≠ "" ∧ t_addr ≠ "" ∧ e_addr ≠ t_addr then
    if qLt (ratio e_addr t_addr) ⟨8, 10⟩ then
      [⟨"ADDRESS_MISMATCH", Severity.warning, "address",
        strOpt prop.address, strOpt tax_prop.address, "Address mismatch", some fid⟩]
    else []
  else []

/-- Property type/uso (free text). -/
def typeIssues (prop tax_prop : PropRec) (fid : String) : List Issue :=
  let e := normalize_text (pyOrOpt prop.type prop.uso)
  let t := normalize_text (pyOrOpt tax_prop.type tax_prop.uso)
  if e ≠ "" ∧ t ≠ "" ∧ e ≠ t then
    [⟨"TYPE_MISMATCH", Severity.warning, "type",
      strOpt prop.type, strOpt tax_prop.type, "Property type mismatch", some fid⟩]
  else []

/-- Property type code (600U, 600R, ...). -/
def ptypeIssues (prop tax_prop : PropRec) (fid : String) : List Issue :=
  match prop.property_type, tax_prop.property_type with
  | some e, some t =>
    if e ≠ "" ∧ t ≠ "" ∧ e ≠ t then
      [⟨"TYPE_MISMATCH", Severity.error, "property_type",
        e, t, "Property type code mismatch", some fid⟩]
    else []
  | _, _ => []

/-- The surface-area field-name variants, in priority order. -/
def supKeys : List String :=
  ["surface_area", "superficie", "superficie_construida", "superficie_util"]

def supGet (p : PropRec) (k : String) : Option String :=
  if k = "surface_area" then p.surface_area
  else if k = "superficie" then p.superficie
  else if k = "superficie_construida" then p.superficie_construida
  else if k = "superficie_util" then p.superficie_util
  else none

/-- The loop-body condition of the superficie scan: both variants present
(truthy) and outside tolerance 1. -/
def supMismatch (prop tax_prop : PropRec) (k : String) : Bool :=
  truthyOpt (supGet prop k) ∧ truthyOpt (supGet tax_prop k) ∧
    !compare_decimals (supGet prop k) (supGet tax_prop k) ⟨1, 1⟩

def supIssue (prop tax_prop : PropRec) (fid k : String) : Issue :=
  ⟨"SUPERFICIE_MISMATCH", Severity.warning, k,
    strOpt (supGet prop k), strOpt (supGet tax_prop k), k ++ " mismatch", some fid⟩

/-- The superficie loop: `break` fires only after an issue is added, so the
scan continues past variant pairs that agree within tolerance. -/
def surfaceLoop (prop tax_prop : PropRec) (fid : String) : List String → List Issue
  | [] => []
  | k :: rest =>
    if supMismatch prop tax_prop k then [supIssue prop tax_prop fid k]
    else surfaceLoop prop tax_prop fid rest

def surfaceIssues (prop tax_prop : PropRec) (fid : String) : List Issue :=
  surfaceLoop prop tax_prop fid supKeys

/-- Valor catastral. -/
def valorCatIssues (prop tax_prop : PropRec) (fid : String) : List Issue :=
  if !compare_decimals prop.valor_catastral tax_prop.valor_catastral ⟨1, 100⟩ then
    [⟨"VALOR_CATASTRAL_MISMATCH", Severity.warning, "valor_catastral",
      strOpt prop.valor_catastral, strOpt tax_prop.valor_catastral,
      "Cadastral value mismatch", some fid⟩]
  else []

/-- Cuota/participacion over the ownership-distribution maps. -/
def cuotaIssues (prop tax_prop : PropRec) (fid : String) : List Issue :=
  let e_dist := prop.ownership_distribution
  let t_dist := tax_prop.ownership_distribution
  if e_dist ≠ [] ∧ t_dist ≠ [] then
    concatMap
      (fun p =>
        match lookupAssoc t_dist p.1 with
        | some t_pct =>
          if !compare_decimals (some p.2) (some t_pct) ⟨1, 10⟩ then
            [⟨"CUOTA_MISMATCH", Severity.error, "ownership_" ++ p.1,
              p.2, t_pct, "Ownership share mismatch for " ++ p.1, some fid⟩]
          else []
        | none => [])
      e_dist
  else []

/-- Document number mismatch (escritura vs tax form). -/
def docnumIssues (esc form : SourceRec) (fid : String) : List Issue :=
  match esc.document_number, form.document_number with
  | some e, some t =>
    if e ≠ "" ∧ t ≠ "" ∧ e ≠ t then
      [⟨"DOCUMENT_NUMBER_MISMATCH", Severity.warning, "document_number",
        e, t, "Document numbers differ between escritura and tax form", some fid⟩]
    else []
  | _, _ => []

/-- Build the `{s['seller_nif']: parse_decimal(s.get('percentage_sold')) ...}`
dict; an entry without the `seller_nif` key raises `KeyError`. -/
def sellerPctDict (entries : List SBEntry) (pid : String) :
    Except String (List (String × Option Dec)) := do
  let pairs ← mapMExcept
    (fun s =>
      match s.seller_nif with
      | some nif => Except.ok (nif, parse_decimal s.percentage_sold)
      | none => Except.error "KeyError: seller_nif")
    (entries.filter (fun s => s.property_id = some pid))
  Except.ok (buildDictD pairs)

/-- Sale breakdown comparison (fallible: see `sellerPctDict`). -/
def saleBreakdownIssues (esc form : SourceRec) (prop : PropRec) (fid : String) :
    Except String (List Issue) :=
  match prop.id with
  | none => Except.ok []
  | some pid =>
    if pid = "" then Except.ok []
    else do
      let e_by ← sellerPctDict esc.sale_breakdown pid
      let t_by ← sellerPctDict form.sale_breakdown pid
      Except.ok (concatMap
        (fun p =>
          let t_pct := (lookupAssoc t_by p.1).join
          match p.2, t_pct with
          | some e_d, some t_d =>
            if !qIsZero e_d.val ∧ !qIsZero t_d.val ∧ qLt ⟨1, 10⟩ (qAbs (qSub e_d.val t_d.val)) then
              [⟨"SALE_BREAKDOWN_MISMATCH", Severity.error, "sale_pct_" ++ p.1,
                e_d.lit, t_d.lit,
                "Sale percentage mismatch for seller " ++ p.1, some fid⟩]
            else []
          | _, _ => [])
        e_by)

/-- All issues one matched tax item contributes, in program order. -/
def matchIssues (ratio : String → String → Q)
    (esc : SourceRec) (prop : PropRec) (it : TaxItem) :
    Except String (List Issue) := do
  let sb ← saleBreakdownIssues esc it.form_data prop it.form_id
  Except.ok
    (dateIssues esc it.form_data it.form_id
      ++ valueIssues prop it.property it.form_id
      ++ sellerIssues esc it.form_data it.form_id
      ++ buyerIssues esc it.form_data it.form_id
      ++ notaryIssues esc it.form_data it.form_id
      ++ protocolIssues esc it.form_data it.form_id
      ++ addressIssues ratio prop it.property it.form_id
      ++ typeIssues prop it.property it.form_id
      ++ ptypeIssues prop it.property it.form_id
      ++ surfaceIssues prop it.property it.form_id
      ++ valorCatIssues prop it.property it.form_id
      ++ cuotaIssues prop it.property it.form_id
      ++ docnumIssues esc it.form_data it.form_id
      ++ sb)

/-- The `MISSING_TAX_FORM` issue for an unmatched deed property (built from
the already-normalised reference). -/
def missingIssue (ref : String) : Issue :=
  ⟨"MISSING_TAX_FORM", Severity.error, "ref_catastral",
    ref, strOpt none, "No tax form found for property " ++ ref, none⟩

/-- The report produced for one deed-side property claim. -/
def propReport (ratio : String → String → Q)
    (gs : List (String × List TaxItem)) (esc : SourceRec) (escId : String)
    (prop : PropRec) : Except String Report :=
  let ref := normalize_catastral_ref prop.ref_catastral
  let pid := prop.id.getD "unk"
  let r0 : Report := ⟨escId ++ ":" ++ pid, ref, Severity.ok, [], []⟩
  match propMatches ratio gs ref with
  | [] =>
    Except.ok (add_issue r0 (missingIssue ref))
  | ms => do
    let r1 := { r0 with matched_forms := ms.map TaxItem.form_id }
    let iss ← mapMExcept (matchIssues ratio esc prop) ms
    Except.ok ((concatMap id iss).foldl add_issue r1)

/-- The per-escritura, per-property report pass, in iteration order.  The
Python loop also threads the `matched_refs` set; since matching depends on
neither the reports nor that set, the embedding computes the two outputs as
separate passes (`escReports` and `matchedRefs`) over the same iteration. -/
def escReports (ratio : String → String → Q)
    (gs : List (String × List TaxItem)) (escs : List SourceRec) :
    Except String (List Report) :=
  mapMExcept
    (fun ep => propReport ratio gs ep.1 (ep.1.document_number.getD "unk") ep.2)
    (concatMap (fun esc => esc.properties.map (fun p => (esc, p))) escs)

/-- The `matched_refs` set: the normalised reference of every deed-side
property claim for which a match (exact or fuzzy) was found. -/
def matchedRefs (ratio : String → String → Q)
    (gs : List (String × List TaxItem)) (escs : List SourceRec) : List String :=
  concatMap
    (fun esc =>
      concatMap
        (fun p =>
          let ref := normalize_catastral_ref p.ref_catastral
          if (propMatches ratio gs ref).isEmpty then [] else [ref])
        esc.properties)
    escs

/-- The orphan report for one tax item under an unmatched index key. -/
def orphanReport (k : String) (it : TaxItem) : Report :=
  add_issue ⟨"orphan:" ++ it.form_id, k, Severity.ok, [], []⟩
    ⟨"ORPHAN_TAX_FORM", Severity.warning, "ref_catastral",
      strOpt none, k,
      "Tax form property " ++ k ++ " has no matching escritura", some it.form_id⟩

/-- The orphan loop over the index keys never entered into `matched_refs`. -/
def orphanReports (gs : List (String × List TaxItem)) (matched : List String) :
    List Report :=
  concatMap
    (fun g => if matched.contains g.1 then [] else g.2.map (orphanReport g.1))
    gs

/-- `compare_escritura_with_tax_forms`.  The `Except` layer carries the one
uncaught exception the function can raise (`KeyError` in the sale-breakdown
rule); `Except.ok` is the normal return. -/
def compare_escritura_with_tax_forms (ratio : String → String → Q)
    (data : CompInput) : Except String (List Report) := do
  let gs := taxByCatastral data.tax_forms
  let rs ← escReports ratio gs data.escrituras
  Except.ok (rs ++ orphanReports gs (matchedRefs ratio gs data.escrituras))

/-! ## Embedding of `src/core/llm.py` (consensus merge)

Chunk extractions are the dict view of `model_dump()`: association lists
from field names to values.  Values are the JSON-ish fragment the code
manipulates: `None`, strings, lists and dicts (numbers do not survive
`model_dump` of the string-typed chunk schemas and are modelled as their
string renderings). -/

inductive MVal where
  | null : MVal
  | str : String → MVal
  | listv : List MVal → MVal
  | dictv : List (String × MVal) → MVal
deriving Repr

/-- Python truthiness of an `MVal`. -/
def truthyM (v : MVal) : Bool :=
  match v with
  | MVal.null => false
  | MVal.str s => s ≠ ""
  | MVal.listv xs => !xs.isEmpty
  | MVal.dictv xs => !xs.isEmpty

mutual

/-- Python `repr` of an `MVal`.  String escaping inside `repr` is not
modelled; the data never contains quote characters. -/
def pyRepr : MVal → String
  | MVal.null => "None"
  | MVal.str s => sq ++ s ++ sq
  | MVal.listv xs => "[" ++ String.intercalate ", " (pyReprL xs) ++ "]"
  | MVal.dictv xs => "\x7b" ++ String.intercalate ", " (pyReprP xs) ++ "\x7d"

def pyReprL : List MVal → List String
  | [] => []
  | v :: vs => pyRepr v :: pyReprL vs

def pyReprP : List (String × MVal) → List String
  | [] => []
  | p :: vs => (sq ++ p.1 ++ sq ++ ": " ++ pyRepr p.2) :: pyReprP vs

end

/-- Python `str` of an `MVal` (top level: strings unquoted). -/
def pyStr : MVal → String
  | MVal.null => "None"
  | MVal.str s => s
  | MVal.listv xs => "[" ++ String.intercalate ", " (pyReprL xs) ++ "]"
  | MVal.dictv xs => "\x7b" ++ String.intercalate ", " (pyReprP xs) ++ "\x7d"

/-- Insert into a key-sorted association list (for `json.dumps(sort_keys)`). -/
def insertByKey (p : String × MVal) :
    List (String × MVal) → List (String × MVal)
  | [] => [p]
  | q :: rest => if p.1 ≤ q.1 then p :: q :: rest else q :: insertByKey p rest

def sortByKey (xs : List (String × MVal)) : List (String × MVal) :=
  xs.foldr insertByKey []

mutual

/-- The `json.loads(json.dumps(v, sort_keys=True))` round trip: every nested
dict ends up in sorted key order, everything else is unchanged. -/
def canon : MVal → MVal
  | MVal.null => MVal.null
  | MVal.str s => MVal.str s
  | MVal.listv xs => MVal.listv (canonL xs)
  | MVal.dictv xs => MVal.dictv (sortByKey (canonP xs))

def canonL : List MVal → List MVal
  | [] => []
  | v :: vs => canon v :: canonL vs

def canonP : List (String × MVal) → List (String × MVal)
  | [] => []
  | p :: vs => (p.1, canon p.2) :: canonP vs

end

mutual

/-- JSON rendering of an already-`canon`ed value; `jsonDump (canon v)` is
`json.dumps(v, sort_keys=True)` (JSON string escaping not modelled; the
data never contains characters needing it). -/
def jsonDump : MVal → String
  | MVal.null => "null"
  | MVal.str s => "\"" ++ s ++ "\""
  | MVal.listv xs => "[" ++ String.intercalate ", " (jsonDumpL xs) ++ "]"
  | MVal.dictv xs => "\x7b" ++ String.intercalate ", " (jsonDumpP xs) ++ "\x7d"

def jsonDumpL : List MVal → List String
  | [] => []
  | v :: vs => jsonDump v :: jsonDumpL vs

def jsonDumpP : List (String × MVal) → List String
  | [] => []
  | p :: vs => ("\"" ++ p.1 ++ "\": " ++ jsonDump p.2) :: jsonDumpP vs

end

/-! ### `normalize_name` and person deduplication -/

/-- The honorific list of `normalize_name`, in order. -/
def nameTitles : List String :=
  ["don ", "doña ", "sr. ", "sra. ", "señor ", "señora ", "d. ", "dª "]

def dropChars (n : Nat) (s : String) : String :=
  (s.toList.drop n).asString

/-- The sequential title-stripping loop of `normalize_name`. -/
def stripTitles (titles : List String) (s : String) : String :=
  titles.foldl
    (fun cur title =>
      if isPrefixL title.toList cur.toList then dropChars title.length cur else cur)
    s

/-- NFD decomposition followed by removal of combining marks, modelled for
the Spanish alphabet (note it also folds ñ to n). -/
def foldAccentChar (c : Char) : Char :=
  if c = 'á' then 'a' else if c = 'é' then 'e' else if c = 'í' then 'i'
  else if c = 'ó' then 'o' else if c = 'ú' then 'u' else if c = 'ü' then 'u'
  else if c = 'ñ' then 'n'
  else if c = 'Á' then 'A' else if c = 'É' then 'E' else if c = 'Í' then 'I'
  else if c = 'Ó' then 'O' else if c = 'Ú' then 'U' else if c = 'Ü' then 'U'
  else if c = 'Ñ' then 'N' else c

/-- `normalize_name`: lower-case and strip, remove leading titles, strip
accents, collapse whitespace. -/
def normalize_name (name : String) : String :=
  if name = "" then ""
  else
    let lowered := pyStrip (pyLower name)
    let untitled := stripTitles nameTitles lowered
    let folded := (untitled.toList.map foldAccentChar).asString
    String.intercalate " " ((splitChars pyIsSpaceChar folded).filter (· ≠ ""))

/-- Cased characters for `str.isupper`/`str.islower`, modelled for ASCII and
the Spanish alphabet. -/
def isCasedChar (c : Char) : Bool :=
  c.isAlpha || c = 'á' || c = 'é' || c = 'í' || c = 'ó' || c = 'ú' || c = 'ü' ||
    c = 'ñ' || c = 'Á' || c = 'É' || c = 'Í' || c = 'Ó' || c = 'Ú' || c = 'Ü' || c = 'Ñ'

def isUpperCasedChar (c : Char) : Bool :=
  (c.isAlpha ∧ c.isUpper) || c = 'Á' || c = 'É' || c = 'Í' || c = 'Ó' ||
    c = 'Ú' || c = 'Ü' || c = 'Ñ'

def isLowerCasedChar (c : Char) : Bool :=
  isCasedChar c ∧ !isUpperCasedChar c

/-- Python `str.isupper`: at least one cased character and no lower-case
cased character. -/
def pyIsUpper (s : String) : Bool :=
  s.toList.any isCasedChar ∧ s.toList.all (fun c => !isCasedChar c || isUpperCasedChar c)

/-- Python `str.islower`. -/
def pyIsLower (s : String) : Bool :=
  s.toList.any isCasedChar ∧ s.toList.all (fun c => !isCasedChar c || isLowerCasedChar c)

/-- The placeholder keyword list of `deduplicate_persons`. -/
def personPlaceholders : List String :=
  ["placeholder", "unknown", "n/a", "jane doe", "john doe", "ejemplo", "example"]

/-- A person dict: field-name/value pairs (the `d.get` view is an
association-list lookup). -/
abbrev PDict : Type := List (String × MVal)

def pdictGet (p : PDict) (k : String) : MVal :=
  match lookupAssoc p k with
  | some v => v
  | none => MVal.null

/-- Python `v is None or v == ''` for merge-skipping. -/
def isNullOrEmpty (v : MVal) : Bool :=
  match v with
  | MVal.null => true
  | MVal.str s => s = ""
  | _ => false

def pdictSet (p : PDict) (k : String) (v : MVal) : PDict :=
  dictInsert p k v

def isNullM (v : MVal) : Bool :=
  match v with
  | MVal.null => true
  | _ => false

/-- Append to an insertion-ordered group map. -/
def appendGroup {κ α : Type} [DecidableEq κ]
    (gs : List (κ × List α)) (k : κ) (x : α) : List (κ × List α) :=
  match gs with
  | [] => [(k, [x])]
  | (k0, l0) :: rest =>
    if k0 = k then (k0, l0 ++ [x]) :: rest else (k0, l0) :: appendGroup rest k x

/-- The grouping key of one person in `deduplicate_persons`: `none` means
the person is skipped (non-dict, missing/blank/placeholder name, or a name
that normalises to nothing); an `Except.error` models the `AttributeError`
a truthy non-string `full_name` raises at `name.strip()`. -/
def personGroupKey (person : MVal) : Except String (Option String) :=
  match person with
  | MVal.dictv p =>
    match pdictGet p "full_name" with
    | MVal.null => Except.ok none
    | MVal.str s =>
      if s = "" then Except.ok none
      else if pyStrip s = "" then Except.ok none
      else
        let lower := pyLower s
        if personPlaceholders.any (fun kw => containsSub kw lower) then Except.ok none
        else
          let n := normalize_name s
          if n = "" then Except.ok none else Except.ok (some n)
    | _ => Except.error "AttributeError: strip"
  | _ => Except.ok none

def personGroups (persons : List MVal) :
    Except String (List (String × List PDict)) :=
  persons.foldlM
    (fun gs person => do
      let k? ← personGroupKey person
      match person, k? with
      | MVal.dictv p, some k => Except.ok (appendGroup gs k p)
      | _, _ => Except.ok gs)
    []

/-- One `for key, value in person.items()` step of the person merge. -/
def mergePersonField (merged : PDict) (kv : String × MVal) : Except String PDict :=
  let key := kv.1
  let value := kv.2
  if isNullOrEmpty value then Except.ok merged
  else
    let current := pdictGet merged key
    if isNullOrEmpty current then Except.ok (pdictSet merged key value)
    else if key = "nif" ∨ key = "seller_nif" ∨ key = "buyer_nif" then
      let m1 :=
        if isNullM (pdictGet merged "nif") ∧ truthyM value then
          pdictSet merged "nif" value
        else merged
      let m2 :=
        if key = "seller_nif" ∧ isNullM (pdictGet m1 "seller_nif") ∧ truthyM value then
          pdictSet m1 "seller_nif" value
        else m1
      let m3 :=
        if key = "buyer_nif" ∧ isNullM (pdictGet m2 "buyer_nif") ∧ truthyM value then
          pdictSet m2 "buyer_nif" value
        else m2
      Except.ok m3
    else if key = "full_name" ∧ truthyM value then
      match current with
      | MVal.str cs =>
        if pyIsUpper cs then
          match value with
          | MVal.str vs =>
            if !pyIsUpper vs then Except.ok (pdictSet merged key value)
            else Except.ok merged
          | _ => Except.error "AttributeError: isupper"
        else Except.ok merged
      | _ => Except.error "AttributeError: isupper"
    else Except.ok merged

def mergePersonPair (merged : PDict) (person : PDict) : Except String PDict :=
  person.foldlM mergePersonField merged

/-- The `mixed_case` list comprehension (fallible on non-string names). -/
def mixedCaseFilter : List MVal → Except String (List MVal)
  | [] => Except.ok []
  | c :: rest =>
    match c with
    | MVal.str s => do
      let r ← mixedCaseFilter rest
      if s ≠ "" ∧ !pyIsUpper s ∧ !pyIsLower s then Except.ok (c :: r)
      else Except.ok r
    | _ =>
      if truthyM c then Except.error "AttributeError: isupper"
      else mixedCaseFilter rest

def containsKey (p : PDict) (k : String) : Bool :=
  p.any (fun kv => kv.1 = k)

/-- Merge one name group of `deduplicate_persons`, including the trailing
full-name consistency pass. -/
def mergePersonGroup (group : List PDict) : Except String PDict :=
  match group with
  | [] => Except.ok []
  | g0 :: rest => do
    let merged ← rest.foldlM mergePersonPair g0
    if containsKey merged "full_name" then
      let candidates := (group.map (fun p => pdictGet p "full_name")).filter truthyM
      let mixed ← mixedCaseFilter candidates
      match mixed with
      | c :: _ => Except.ok (pdictSet merged "full_name" c)
      | [] =>
        match candidates with
        | c :: _ => Except.ok (pdictSet merged "full_name" c)
        | [] => Except.ok merged
    else Except.ok merged

/-- `deduplicate_persons`. -/
def deduplicate_persons (persons : List MVal) : Except String (List MVal) := do
  let gs ← personGroups persons
  mapMExcept
    (fun g => do
      let m ← mergePersonGroup g.2
      Except.ok (MVal.dictv m))
    gs

/-! ### Property deduplication -/

/-- The placeholder keyword list of `deduplicate_properties`. -/
def propPlaceholders : List String :=
  ["placeholder", "unknown", "n/a", "ejemplo", "example", "calle falsa"]

/-- The placeholder scan over every string-valued field of a property. -/
def isPlaceholderProp (p : PDict) : Bool :=
  p.any (fun kv =>
    match kv.2 with
    | MVal.str s => propPlaceholders.any (fun kw => containsSub kw (pyLower s))
    | _ => false)

/-- `prop.get('ref_catastral', '').strip()`: the default only applies when
the key is absent; a present `None` (or non-string) raises. -/
def propRefKey (p : PDict) : Except String String :=
  match lookupAssoc p "ref_catastral" with
  | none => Except.ok ""
  | some (MVal.str s) => Except.ok (pyStrip s)
  | some _ => Except.error "AttributeError: strip"

/-- `prop.get('address', '').strip() if prop.get('address') else ''`. -/
def propAddrKey (p : PDict) : Except String String :=
  match lookupAssoc p "address" with
  | none => Except.ok ""
  | some v =>
    if truthyM v then
      match v with
      | MVal.str s => Except.ok (pyStrip s)
      | _ => Except.error "AttributeError: strip"
    else Except.ok ""

/-- A field value counting against `v not in [None, '', []]`. -/
def isNotNullEmptyList (v : MVal) : Bool :=
  match v with
  | MVal.null => false
  | MVal.str s => s ≠ ""
  | MVal.listv [] => false
  | _ => true

/-- `float(str(x).replace(',', '.')) if x else 0`; `none` models the
exception branch that silently keeps the current value. -/
def propNumOf (v : MVal) : Option Q :=
  if truthyM v then
    (decOfCleaned (pyStrip ((pyStr v).toList.map
      (fun c => if c = ',' then '.' else c)).asString)).map Dec.val
  else some (qOfInt 0)

/-- One field step of the property merge. -/
def mergePropField (merged : PDict) (kv : String × MVal) : PDict :=
  let field_name := kv.1
  let value := kv.2
  if isNullOrEmpty value then merged
  else
    let current := pdictGet merged field_name
    if isNullOrEmpty current then pdictSet merged field_name value
    else if field_name = "declared_value" ∨ field_name = "surface_area" then
      match propNumOf current, propNumOf value with
      | some c, some n => if qLt c n then pdictSet merged field_name value else merged
      | _, _ => merged
    else merged

def mergePropGroup (group : List PDict) : PDict :=
  match group with
  | [] => []
  | g0 :: rest => rest.foldl (fun m p => p.foldl mergePropField m) g0

/-- The grouping/filter pass of `deduplicate_properties`: grouped entries
(keyed by `('ref', ...)` or `('addr', ...)`) plus the unkeyed remainder. -/
def propGroupsAux (props : List MVal) :
    Except String (List ((String × String) × List PDict) × List PDict) :=
  props.foldlM
    (fun st prop =>
      match prop with
      | MVal.dictv p =>
        if isPlaceholderProp p then Except.ok st
        else do
          let ref_cat ← propRefKey p
          let address ← propAddrKey p
          if ref_cat ≠ "" then
            Except.ok (appendGroup st.1 ("ref", ref_cat) p, st.2)
          else if address ≠ "" then
            Except.ok (appendGroup st.1 ("addr", pyLower address) p, st.2)
          else if p.any (fun kv => kv.1 ≠ "id" ∧ truthyM kv.2) then
            Except.ok (st.1, st.2 ++ [p])
          else Except.ok st
      | _ => Except.ok st)
    ([], [])

/-- `deduplicate_properties`. -/
def deduplicate_properties (props : List MVal) : Except String (List MVal) := do
  let st ← propGroupsAux props
  let mergedGroups := st.1.map (fun g => MVal.dictv (mergePropGroup g.2))
  let unkeyedKept := (st.2.filter
    (fun p => 2 ≤ (p.filter (fun kv => kv.1 ≠ "id" ∧ isNotNullEmptyList kv.2)).length)).map
    MVal.dictv
  Except.ok (mergedGroups ++ unkeyedKept)

/-! ### `merge_chunk_extractions` -/

/-- A chunk extraction, as the dict produced by `model_dump()`. -/
abbrev Chunk : Type := List (String × MVal)

/-- `chunk_dict.get(field_name)`: an absent key reads as `None`. -/
def chunkGet (c : Chunk) (f : String) : MVal :=
  match lookupAssoc c f with
  | some v => v
  | none => MVal.null

/-- The per-value skip conditions of the collection loop: `None`, blank
strings, empty lists, dicts whose values are all falsy. -/
def skipVal (v : MVal) : Bool :=
  match v with
  | MVal.null => true
  | MVal.str s => pyStrip s = ""
  | MVal.listv xs => xs.isEmpty
  | MVal.dictv xs => !xs.any (fun kv => truthyM kv.2)

/-- Collect the non-missing values of one field across the chunks, in chunk
order. -/
def collectField (chunks : List Chunk) (f : String) : List MVal :=
  (chunks.map (fun c => chunkGet c f)).filter (fun v => !skipVal v)

def isDictM (v : MVal) : Bool :=
  match v with
  | MVal.dictv _ => true
  | _ => false

def countOcc (k : String) (l : List String) : Nat :=
  (l.filter (fun x => x = k)).length

def getLastStr (l : List MVal) (dflt : MVal) : MVal :=
  match l.reverse with
  | [] => dflt
  | v :: _ => v

/-- The non-dict voting branch: `Counter` over `str(v)` keys.
`most_common()[0]` is the first-observed key attaining the maximal count;
`most_common()[1][1]` is the maximal count among the remaining keys; on a
clear majority the first value rendering to the winner is returned, else
the last collected value. -/
def voteNonDict (vs : List MVal) : MVal :=
  match vs with
  | [] => MVal.null
  | v0 :: rest =>
    let values := v0 :: rest
    let strs := values.map pyStr
    let keys := pyDedupKeys strs
    if keys.length = 1 then v0
    else
      let maxc := (keys.map (fun k => countOcc k strs)).foldr max 0
      match keys.find? (fun k => countOcc k strs = maxc) with
      | none => MVal.null
      | some winner =>
        let second :=
          ((keys.filter (fun k => k ≠ winner)).map (fun k => countOcc k strs)).foldr max 0
        if second < maxc then
          match values.find? (fun v => pyStr v = winner) with
          | some w => w
          | none => MVal.null
        else getLastStr values MVal.null

/-- The all-dicts voting branch: count by `json.dumps(v, sort_keys=True)`
and return `json.loads` of the most common serialisation. -/
def jsonVote (vs : List MVal) : MVal :=
  let ds := vs.map (fun v => jsonDump (canon v))
  let keys := pyDedupKeys ds
  let maxc := (keys.map (fun k => countOcc k ds)).foldr max 0
  match keys.find? (fun k => countOcc k ds = maxc) with
  | none => MVal.null
  | some winner =>
    match vs.find? (fun v => jsonDump (canon v) = winner) with
    | some w => canon w
    | none => MVal.null

/-- The list-field merge: extend with lists, append other values. -/
def mergeListField (vs : List MVal) : List MVal :=
  vs.foldl
    (fun acc v =>
      match v with
      | MVal.listv xs => acc ++ xs
      | _ => acc ++ [v])
    []

/-- The merge strategy for one field given its collected values. -/
def mergeField (is_list_field : Bool) (vs : List MVal) : MVal :=
  if vs.isEmpty then (if is_list_field then MVal.listv [] else MVal.null)
  else if is_list_field then MVal.listv (mergeListField vs)
  else if vs.all isDictM then jsonVote vs
  else voteNonDict vs

/-- One post-processing update (`deduplicate_persons`/`deduplicate_properties`
applied to a present, truthy list field).  Iterating a truthy non-list value
yields no dict elements, so those deduplicate to `[]` exactly as in Python. -/
def postUpdate (m : Chunk) (key : String)
    (dedup : List MVal → Except String (List MVal)) : Except String Chunk :=
  match lookupAssoc m key with
  | some v =>
    if truthyM v then do
      let xs ←
        match v with
        | MVal.listv xs => dedup xs
        | _ => dedup []
      Except.ok (dictInsert m key (MVal.listv xs))
    else Except.ok m
  | none => Except.ok m

/-- `merge_chunk_extractions` over a model given as its field list
(name, is-list-typed).  The trailing `model_validate` /` model_construct`
step returns the merged record either way and is modelled as the identity. -/
def merge_chunk_extractions (model_fields : List (String × Bool))
    (chunk_results : List Chunk) : Except String Chunk := do
  let merged := model_fields.map
    (fun fb => (fb.1, mergeField fb.2 (collectField chunk_results fb.1)))
  let m1 ← postUpdate merged "sellers" deduplicate_persons
  let m2 ← postUpdate m1 "buyers" deduplicate_persons
  let m3 ← postUpdate m2 "properties" deduplicate_properties
  Except.ok m3

/-! ### Auxiliary definitions used by the statements below -/

/-- Numeric rank of a severity (`error > warning > ok`). -/
def sevRank (s : Severity) : Nat :=
  match s with
  | Severity.ok => 0
  | Severity.warning => 1
  | Severity.error => 2

/-- The maximal severity rank in a list of issues. -/
def issuesRank (l : List Issue) : Nat :=
  (l.map (fun i => sevRank i.severity)).foldr max 0

/-- `k` copies of a list, concatenated (the result of extending a list
field from `k` identical chunks). -/
def repeatConcat {α : Type} : Nat → List α → List α
  | 0, _ => []
  | k + 1, xs => xs ++ repeatConcat k xs

/-- The list fields that `merge_chunk_extractions` post-processes. -/
def specialNames : List String := ["sellers", "buyers", "properties"]

/-- A concrete similarity oracle for closed evaluations (any function is
admissible; the theorems quantify over the oracle). -/
def ratioZero : String → String → Q := fun _ _ => qOfInt 0

/-- A report `r` carries an orphan report for index key `k`. -/
def isOrphanReportFor (r : Report) (k : String) : Prop :=
  r.ref_catastral = k ∧ ∃ i ∈ r.issues, i.code = "ORPHAN_TAX_FORM"

/-! Concrete records for the closed counterexamples and witnesses. -/

/-- Deed record whose one property fuzzy-matches (by 14-character prefix)
the tax key `AAAAAAAAAAAAAAY` but is not an exact index hit. -/
def escFuzzy : SourceRec :=
  { document_number := some "E1"
    properties := [{ id := some "p1", ref_catastral := some "AAAAAAAAAAAAAAX" }] }

def formY : SourceRec :=
  { document_number := some "F1"
    properties := [{ ref_catastral := some "AAAAAAAAAAAAAAY" }] }

def fuzzyInput : CompInput := ⟨[escFuzzy], [formY]⟩

/-- Deed record with a sale-breakdown entry lacking the `seller_nif` key for
a property that matches a tax form. -/
def escKeyErr : SourceRec :=
  { document_number := some "E1"
    properties := [{ id := some "p1", ref_catastral := some "AAAAAAAAAAAAAAX" }]
    sale_breakdown := [{ property_id := some "p1" }] }

def formX : SourceRec :=
  { document_number := some "E1"
    properties := [{ ref_catastral := some "AAAAAAAAAAAAAAX" }] }

def keyErrInput : CompInput := ⟨[escKeyErr], [formX]⟩

/-- Deed record with one seller whose raw NIF `a-1` normalises to `A1`. -/
def escSeller : SourceRec :=
  { document_number := some "E1"
    sellers := [{ seller_nif := some "a-1" }]
    properties := [{ id := some "p1", ref_catastral := some "AAAAAAAAAAAAAAX" }] }

def sellerInput : CompInput := ⟨[escSeller], [formX]⟩

/-- Deed sellers `{A1, B2}` against tax-form sellers `{A1}`. -/
def escTwoSellers : SourceRec :=
  { sellers := [{ seller_nif := some "A1" }, { seller_nif := some "B2" }] }

def formOneSeller : SourceRec :=
  { sellers := [{ seller_nif := some "A1" }] }

/-- Property pair whose first present surface variant (`surface_area`)
agrees, while the later `superficie` variant mismatches beyond tolerance. -/
def propSupE : PropRec :=
  { surface_area := some "100", superficie := some "50" }

def propSupT : PropRec :=
  { surface_area := some "100", superficie := some "99" }

/-- A chunk whose one property has no cadastral reference, no address and a
single non-`id` populated field: property deduplication discards it. -/
def unkeyedPropChunk : Chunk :=
  [("properties", MVal.listv
    [MVal.dictv [("id", MVal.str "p1"), ("surface_area", MVal.str "100")]])]

/-- A single-string-field chunk (for the voting counterexample). -/
def strChunk (x : String) : Chunk := [("f", MVal.str x)]

/-- Shape of a scalar (non-list-typed) field value under which unanimous
merging is exact: absent (`None`) or a non-blank string. -/
def scalarOkB (v : MVal) : Bool :=
  match v with
  | MVal.null => true
  | MVal.str s => pyStrip s != ""
  | _ => false

def isListVal (v : MVal) : Bool :=
  match v with
  | MVal.listv _ => true
  | _ => false

def isEmptyListVal (v : MVal) : Bool :=
  match v with
  | MVal.listv [] => true
  | _ => false

/-- The value the field-merge loop computes for one field when all `n + 1`
chunks are identical: list fields are concatenated `n + 1` times, scalar
fields keep their unanimous value. -/
def mergedValue (n : Nat) (c : Chunk) (f : String) : MVal :=
  match chunkGet c f with
  | MVal.listv xs => MVal.listv (repeatConcat (n + 1) xs)
  | v => v

/-- A person dict that person deduplication maps to itself (upper-case
name, so the mixed-case pass keeps the original rendering). -/
def anaPerson : MVal :=
  MVal.dictv [("full_name", MVal.str "ANA GARCIA"), ("nif", MVal.str "12345678A")]

/-- A property dict keyed by its cadastral reference, fixed by the
numeric-max merge. -/
def refProp : MVal :=
  MVal.dictv [("ref_catastral", MVal.str "AAAAAAAAAAAAAAX"),
    ("surface_area", MVal.str "100")]

/-- A well-formed chunk on which unanimous merging is the identity. -/
def unanimousChunk : Chunk :=
  [("document_number", MVal.str "E1"),
   ("sellers", MVal.listv [anaPerson]),
   ("properties", MVal.listv [refProp])]

def unanimousModel : List (String × Bool) :=
  [("document_number", false), ("sellers", true), ("properties", true)]

/-! ## Lemmas -/

theorem add_issue_issues (r : Report) (i : Issue) :
    (add_issue r i).issues = r.issues ++ [i] := rfl

theorem add_issue_rank (r : Report) (i : Issue) :
    sevRank (add_issue r i).status = max (sevRank r.status) (sevRank i.severity) := by
  rcases r with ⟨pid, ref, st, mf, is⟩
  rcases i with ⟨code, sev, fld, ev, tv, msg, fid⟩
  cases st <;> cases sev <;> simp [add_issue, sevRank]

theorem foldl_add_issue_issues (l : List Issue) (r : Report) :
    (l.foldl add_issue r).issues = r.issues ++ l := by
  induction l generalizing r with
  | nil => simp
  | cons a t ih =>
    simp only [List.foldl_cons, ih, add_issue_issues, List.append_assoc,
      List.singleton_append]

theorem issuesRank_cons (a : Issue) (t : List Issue) :
    issuesRank (a :: t) = max (sevRank a.severity) (issuesRank t) := rfl

theorem foldl_add_issue_rank (l : List Issue) (r : Report) :
    sevRank (l.foldl add_issue r).status = max (sevRank r.status) (issuesRank l) := by
  induction l generalizing r with
  | nil => simp [issuesRank]
  | cons a t ih =>
    simp only [List.foldl_cons, ih, add_issue_rank, issuesRank_cons]
    omega

/-- C7: for every report and every sequence of `add_issue` calls, the status
equals the maximum severity among the recorded issues (`error > warning >
ok`; a freshly created report with no issues has status `ok`), and adding an
issue never lowers the status. -/
theorem c7_status_is_max_severity (pid ref : String) (mf : List String)
    (l : List Issue) (i : Issue) (r : Report) :
    (l.foldl add_issue ⟨pid, ref, Severity.ok, mf, []⟩).issues = l
    ∧ sevRank (l.foldl add_issue ⟨pid, ref, Severity.ok, mf, []⟩).status = issuesRank l
    ∧ sevRank (l.foldl add_issue r).status = max (sevRank r.status) (issuesRank l)
    ∧ sevRank r.status ≤ sevRank (add_issue r i).status := by
  refine ⟨?_, ?_, foldl_add_issue_rank l r, ?_⟩
  · simpa using foldl_add_issue_issues l ⟨pid, ref, Severity.ok, mf, []⟩
  · simpa [sevRank] using foldl_add_issue_rank l ⟨pid, ref, Severity.ok, mf, []⟩
  · rw [add_issue_rank]
    exact Nat.le_max_left _ _

/-- C3: the engine is not total.  At `keyErrInput` — a well-shaped input
whose matched escritura has a sale-breakdown entry for the matched property
id but without the `seller_nif` key — `compare_escritura_with_tax_forms`
raises `KeyError` instead of returning reports. -/
theorem c3_keyerror_on_sale_breakdown :
    compare_escritura_with_tax_forms ratioZero keyErrInput
      = Except.error "KeyError: seller_nif" := by
  rfl

/-- C1 counterexample: the deed reference `AAAAAAAAAAAAAAX` fuzzy-matches
the index key `AAAAAAAAAAAAAAY` (14-character-prefix tier), the report lists
the matched form `F1`, and yet the same key still produces an
`ORPHAN_TAX_FORM` report: a key matched only by the fuzzy fallback is NOT
excluded from orphan reporting. -/
theorem c1_fuzzy_key_still_orphaned :
    fuzzy_match_catastral ratioZero "AAAAAAAAAAAAAAX" "AAAAAAAAAAAAAAY" ⟨85, 100⟩ = true
    ∧ (compare_escritura_with_tax_forms ratioZero fuzzyInput).toOption.map
        (fun rs => rs.map (fun r =>
          (r.property_id, r.ref_catastral, r.matched_forms, r.issues.map Issue.code)))
      = some
        [("E1:p1", "AAAAAAAAAAAAAAX", ["F1"], ["DOCUMENT_NUMBER_MISMATCH"]),
         ("orphan:F1", "AAAAAAAAAAAAAAY", [], ["ORPHAN_TAX_FORM"])] := by
  exact ⟨by decide, by rfl⟩

/-- C2 counterexample: with collected field values `a, a, b, b, c` the top
two counts tie, so the merge returns the last observed value `c`, whose
occurrence count is NOT maximal. -/
theorem c2_tie_returns_nonmaximal_last :
    merge_chunk_extractions [("f", false)]
        [strChunk "a", strChunk "a", strChunk "b", strChunk "b", strChunk "c"]
      = Except.ok [("f", MVal.str "c")]
    ∧ countOcc "c" ["a", "a", "b", "b", "c"] < countOcc "a" ["a", "a", "b", "b", "c"] := by
  exact ⟨by rfl, by decide⟩

/-- C4 counterexample: in `1,234.56` the dot is the last separator, yet
`parse_decimal` removes it and treats the comma as the decimal separator,
yielding 1.23456 instead of the 1234.56 the last-separator rule announces. -/
theorem c4_last_separator_not_decimal :
    (parse_decimal (some "1,234.56")).map (fun d => qEq d.val ⟨123456, 100000⟩) = some true
    ∧ (parse_decimal (some "1,234.56")).map (fun d => qEq d.val ⟨123456, 100⟩) = some false := by
  exact ⟨by decide, by decide⟩

/-- C5 counterexample: the first variant pair present on both sides
(`surface_area`, equal) does not stop the scan; the later mismatching
`superficie` pair produces the issue. -/
theorem c5_first_present_pair_does_not_decide :
    surfaceIssues propSupE propSupT "F1"
        = [supIssue propSupE propSupT "F1" "superficie"]
    ∧ (supIssue propSupE propSupT "F1" "superficie").field = "superficie"
    ∧ truthyOpt (supGet propSupE "surface_area") = true
    ∧ truthyOpt (supGet propSupT "surface_area") = true
    ∧ "surface_area" ≠ "superficie" := by
  exact ⟨by decide, by decide, by decide, by decide, by decide⟩

/-- C6 counterexample: a seller mismatch records the normalised NIF list
`[A1]`, not the raw value `a-1` supplied in the input record. -/
theorem c6_seller_issue_records_normalized :
    (compare_escritura_with_tax_forms ratioZero sellerInput).toOption.map
        (fun rs => rs.map (fun r => r.issues.map (fun i => (i.code, i.escritura_value))))
      = some [[("SELLER_MISMATCH", strList [normalize_nif (some "a-1")])]]
    ∧ escSeller.sellers.map PersonRec.seller_nif = [some "a-1"]
    ∧ strList [normalize_nif (some "a-1")] = "[" ++ sq ++ "A1" ++ sq ++ "]"
    ∧ "[" ++ sq ++ "A1" ++ sq ++ "]" ≠ "a-1" := by
  exact ⟨by rfl, by decide, by decide, by decide⟩

/-- C9 counterexample: merging a singleton list does not return the chunk
unchanged — its keyless single-field property is discarded by
`deduplicate_properties`. -/
theorem c9_singleton_merge_not_identity :
    merge_chunk_extractions [("properties", true)] [unkeyedPropChunk]
      = Except.ok [("properties", MVal.listv [])]
    ∧ [("properties", MVal.listv [])] ≠ unkeyedPropChunk := by
  refine ⟨by rfl, ?_⟩
  simp [unkeyedPropChunk]

/-- The deed-minus-tax-form seller difference (minus the empty string). -/
theorem seller_missing_mem (esc form : SourceRec) (a : String) :
    a ∈ sellerMissing esc form
      ↔ a ∈ sellerSet esc.sellers ∧ a ∉ sellerSet form.sellers ∧ a ≠ "" := by
  simp [sellerMissing, List.mem_filter]

theorem sellerIssues_cases (esc form : SourceRec) (fid : String) :
    sellerIssues esc form fid
      = if sellerMissing esc form = [] then [] else [sellerIssue esc form fid] := by
  by_cases h : sellerMissing esc form = [] <;> simp [sellerIssues, h]

/-- C8: the seller rule emits at most one `SELLER_MISMATCH` issue per
matched form; that single issue lists exactly the deed-side normalised
tax IDs absent from the tax-form side (set difference minus the blank id);
and on the concrete scenario deed `{A1, B2}` versus tax form `{A1}` it is
exactly one issue naming `{B2}`. -/
theorem c8_one_seller_issue_lists_all_missing (esc form : SourceRec) (fid : String) :
    (sellerIssues esc form fid).length ≤ 1
    ∧ (∀ i ∈ sellerIssues esc form fid,
        i.code = "SELLER_MISMATCH"
        ∧ i.severity = Severity.error
        ∧ i.message = "Missing sellers: " ++ setStr (sellerMissing esc form)
        ∧ ∀ a, a ∈ sellerMissing esc form
            ↔ a ∈ sellerSet esc.sellers ∧ a ∉ sellerSet form.sellers ∧ a ≠ "")
    ∧ (sellerIssues esc form fid = [] ↔ sellerMissing esc form = [])
    ∧ (sellerIssues escTwoSellers formOneSeller "F1").map
        (fun i => (i.code, i.message))
      = [("SELLER_MISMATCH", "Missing sellers: " ++ setStr ["B2"])] := by
  rw [sellerIssues_cases]
  refine ⟨?_, ?_, ?_, by decide⟩
  · by_cases h : sellerMissing esc form = [] <;> simp [h]
  · intro i hi
    by_cases h : sellerMissing esc form = []
    · simp [h] at hi
    · simp [h] at hi
      subst hi
      exact ⟨rfl, rfl, rfl, fun a => seller_missing_mem esc form a⟩
  · by_cases h : sellerMissing esc form = [] <;> simp [h]

/-- C8 witness: the theorem applied at the documented scenario. -/
theorem c8_one_seller_issue_lists_all_missing_witness :
    (sellerIssues escTwoSellers formOneSeller "F1").length ≤ 1 := by
  exact (c8_one_seller_issue_lists_all_missing escTwoSellers formOneSeller "F1").1

/-- The superficie scan, characterised over an arbitrary variant list: at
most one issue; empty exactly when no variant pair is present-and-
mismatching; a produced issue concerns the first present-and-mismatching
variant (every earlier variant fails the condition). -/
theorem surfaceLoop_spec (prop tax_prop : PropRec) (fid : String) (ks : List String) :
    (surfaceLoop prop tax_prop fid ks).length ≤ 1
    ∧ (surfaceLoop prop tax_prop fid ks = []
        ↔ ∀ k ∈ ks, supMismatch prop tax_prop k = false)
    ∧ (∀ i ∈ surfaceLoop prop tax_prop fid ks,
        ∃ l1 l2, ks = l1 ++ i.field :: l2
          ∧ supMismatch prop tax_prop i.field = true
          ∧ (∀ k ∈ l1, supMismatch prop tax_prop k = false)
          ∧ i = supIssue prop tax_prop fid i.field) := by
  induction ks with
  | nil => simp [surfaceLoop]
  | cons k rest ih =>
    by_cases h : supMismatch prop tax_prop k
    · refine ⟨?_, ?_, ?_⟩
      · simp [surfaceLoop, h]
      · simp [surfaceLoop, h]
      · intro i hi
        simp [surfaceLoop, h] at hi
        subst hi
        exact ⟨[], rest, by simp [supIssue], by simpa [supIssue] using h, by simp, rfl⟩
    · have h0 : supMismatch prop tax_prop k = false := by
        simpa using h
      refine ⟨?_, ?_, ?_⟩
      · simpa [surfaceLoop, h0] using ih.1
      · rw [show surfaceLoop prop tax_prop fid (k :: rest)
              = surfaceLoop prop tax_prop fid rest by simp [surfaceLoop, h0]]
        constructor
        · intro he k2 hk2
          rcases List.mem_cons.mp hk2 with hk | hk
          · exact hk ▸ h0
          · exact (ih.2.1.mp he) k2 hk
        · intro hall
          exact ih.2.1.mpr (fun k2 hk2 => hall k2 (List.mem_cons_of_mem _ hk2))
      · intro i hi
        rw [show surfaceLoop prop tax_prop fid (k :: rest)
              = surfaceLoop prop tax_prop fid rest by simp [surfaceLoop, h0]] at hi
        rcases ih.2.2 i hi with ⟨l1, l2, hks, hm, hl1, hival⟩
        refine ⟨k :: l1, l2, by simp [hks], hm, ?_, hival⟩
        intro k2 hk2
        rcases List.mem_cons.mp hk2 with hk | hk
        · exact hk ▸ h0
        · exact hl1 k2 hk

/-- C5 amended: the surface-area variants are tried in fixed priority order,
but a present pair that agrees within tolerance does NOT stop the scan; the
single issue (at most one per matched form) concerns the first
present-and-mismatching variant pair, and no issue is produced exactly when
no variant pair mismatches. -/
theorem c5_first_mismatching_variant_wins (prop tax_prop : PropRec) (fid : String) :
    (surfaceIssues prop tax_prop fid).length ≤ 1
    ∧ (surfaceIssues prop tax_prop fid = []
        ↔ ∀ k ∈ supKeys, supMismatch prop tax_prop k = false)
    ∧ (∀ i ∈ surfaceIssues prop tax_prop fid,
        ∃ l1 l2, supKeys = l1 ++ i.field :: l2
          ∧ supMismatch prop tax_prop i.field = true
          ∧ (∀ k ∈ l1, supMismatch prop tax_prop k = false)
          ∧ i = supIssue prop tax_prop fid i.field) := by
  exact surfaceLoop_spec prop tax_prop fid supKeys

/-- C5 witness: the theorem applied at the concrete mismatching pair — the
issue names `superficie`, the first mismatching (not the first present)
variant. -/
theorem c5_first_mismatching_variant_wins_witness :
    ∃ l1 l2, supKeys = l1 ++ (supIssue propSupE propSupT "F1" "superficie").field :: l2
      ∧ supMismatch propSupE propSupT
          (supIssue propSupE propSupT "F1" "superficie").field = true
      ∧ (∀ k ∈ l1, supMismatch propSupE propSupT k = false)
      ∧ supIssue propSupE propSupT "F1" "superficie"
          = supIssue propSupE propSupT "F1"
              (supIssue propSupE propSupT "F1" "superficie").field := by
  exact (c5_first_mismatching_variant_wins propSupE propSupT "F1").2.2
    (supIssue propSupE propSupT "F1" "superficie") (by decide)

/-! ### Lemmas on the voting machinery -/

theorem pyDedupAux_mem (a : String) (l seen : List String) :
    a ∈ pyDedupAux seen l ↔ a ∈ l ∧ a ∉ seen := by
  induction l generalizing seen with
  | nil => simp [pyDedupAux]
  | cons b t ih =>
    by_cases hb : b ∈ seen
    · rw [show pyDedupAux seen (b :: t) = pyDedupAux seen t by simp [pyDedupAux, hb]]
      rw [ih]
      constructor
      · exact fun h => ⟨List.mem_cons_of_mem _ h.1, h.2⟩
      · rintro ⟨h1, h2⟩
        rcases List.mem_cons.mp h1 with h | h
        · exact absurd (h ▸ hb) h2
        · exact ⟨h, h2⟩
    · rw [show pyDedupAux seen (b :: t) = b :: pyDedupAux (b :: seen) t by
        simp [pyDedupAux, hb]]
      constructor
      · intro h
        rcases List.mem_cons.mp h with h | h
        · exact ⟨h ▸ List.mem_cons_self b t, h ▸ hb⟩
        · have := (ih (b :: seen)).mp h
          exact ⟨List.mem_cons_of_mem _ this.1,
            fun hs => this.2 (List.mem_cons_of_mem _ hs)⟩
      · rintro ⟨h1, h2⟩
        rcases List.mem_cons.mp h1 with h | h
        · exact h ▸ List.mem_cons_self _ _
        · by_cases hab : a = b
          · exact hab ▸ List.mem_cons_self _ _
          · exact List.mem_cons_of_mem _ ((ih (b :: seen)).mpr
              ⟨h, fun hs => (List.mem_cons.mp hs).elim hab h2⟩)

theorem pyDedupKeys_mem (a : String) (l : List String) :
    a ∈ pyDedupKeys l ↔ a ∈ l := by
  rw [pyDedupKeys, pyDedupAux_mem]
  simp

theorem countOcc_pos_of_mem (a : String) (l : List String) (h : a ∈ l) :
    0 < countOcc a l := by
  rw [countOcc, List.length_pos]
  intro hnil
  have : a ∈ l.filter (fun x => x = a) := List.mem_filter.mpr ⟨h, by simp⟩
  rw [hnil] at this
  exact absurd this (List.not_mem_nil a)

theorem le_foldr_max (x : Nat) (l : List Nat) (h : x ∈ l) :
    x ≤ l.foldr max 0 := by
  induction l with
  | nil => cases h
  | cons b t ih =>
    rcases List.mem_cons.mp h with hx | hx
    · simp only [List.foldr_cons, hx]
      exact Nat.le_max_left _ _
    · exact Nat.le_trans (ih hx) (by simp only [List.foldr_cons]; exact Nat.le_max_right _ _)

theorem foldr_max_le (c : Nat) (l : List Nat) (h : ∀ x ∈ l, x ≤ c) :
    l.foldr max 0 ≤ c := by
  induction l with
  | nil => simp
  | cons b t ih =>
    simp only [List.foldr_cons]
    exact Nat.max_le.mpr ⟨h b (List.mem_cons_self _ _),
      ih (fun x hx => h x (List.mem_cons_of_mem _ hx))⟩

theorem foldr_max_lt (c : Nat) (l : List Nat) (hc : 0 < c)
    (h : ∀ x ∈ l, x < c) : l.foldr max 0 < c := by
  induction l with
  | nil => simpa
  | cons b t ih =>
    simp only [List.foldr_cons]
    exact Nat.max_lt.mpr ⟨h b (List.mem_cons_self _ _),
      ih (fun x hx => h x (List.mem_cons_of_mem _ hx))⟩

theorem foldr_max_attained (l : List Nat) (h : l.foldr max 0 ≠ 0) :
    ∃ x ∈ l, x = l.foldr max 0 := by
  induction l with
  | nil => simp at h
  | cons b t ih =>
    simp only [List.foldr_cons] at h ⊢
    rcases Nat.lt_or_ge (t.foldr max 0) b with hlt | hge
    · exact ⟨b, List.mem_cons_self _ _, (Nat.max_eq_left (Nat.le_of_lt hlt)).symm⟩
    · have hm : max b (t.foldr max 0) = t.foldr max 0 := Nat.max_eq_right hge
      rw [hm] at h ⊢
      rcases ih h with ⟨x, hx, hxe⟩
      exact ⟨x, List.mem_cons_of_mem _ hx, hxe⟩

theorem find?_eq_some_unique {p : String → Bool} (l : List String) (m : String)
    (hm : m ∈ l) (hpm : p m = true) (huniq : ∀ x ∈ l, p x = true → x = m) :
    l.find? p = some m := by
  induction l with
  | nil => cases hm
  | cons b t ih =>
    by_cases hb : p b = true
    · have hbm : b = m := huniq b (List.mem_cons_self _ _) hb
      subst hbm
      simp [List.find?, hb]
    · have hbm : b ≠ m := fun h => hb (h ▸ hpm)
      rw [show (b :: t).find? p = t.find? p by
        simp [List.find?_cons, Bool.not_eq_true] at hb ⊢
        simp [hb]]
      exact ih ((List.mem_cons.mp hm).resolve_left (fun h => hbm h.symm))
        (fun x hx hp => huniq x (List.mem_cons_of_mem _ hx) hp)

theorem map_pyStr_map_str (l : List String) : (l.map MVal.str).map pyStr = l := by
  induction l with
  | nil => rfl
  | cons a t ih => simp only [List.map_cons, pyStr, ih]

theorem headD_append_single (xs : List String) (a d : String) :
    (xs ++ [a]).headD d = xs.headD a := by
  cases xs <;> rfl

theorem getLastD_eq_reverse_head (l : List String) (d : String) :
    l.getLastD d = (l.reverse).headD d := by
  induction l generalizing d with
  | nil => rfl
  | cons a t ih =>
    rw [List.getLastD_cons, List.reverse_cons, headD_append_single, ih]

theorem getLastStr_map_str (l : List String) (hne : l ≠ []) :
    getLastStr (l.map MVal.str) MVal.null = MVal.str (l.getLastD "") := by
  have h2 : (l.map MVal.str).reverse = l.reverse.map MVal.str := by
    rw [List.map_reverse]
  rw [getLastStr, h2, getLastD_eq_reverse_head]
  cases hr : l.reverse with
  | nil => exact absurd (by simpa using congrArg List.reverse hr) hne
  | cons b t2 => simp

theorem find?_map_str (l : List String) (p : MVal → Bool) :
    (l.map MVal.str).find? p = (l.find? (fun s => p (MVal.str s))).map MVal.str := by
  induction l with
  | nil => rfl
  | cons a t ih =>
    by_cases hp : p (MVal.str a)
    · simp [List.find?_cons, hp]
    · simp only [List.map_cons, List.find?_cons, Bool.not_eq_true] at hp ⊢
      simp [hp, ih]

theorem mergeField_nonDict (l : List String) (hne : l ≠ []) :
    mergeField false (l.map MVal.str) = voteNonDict (l.map MVal.str) := by
  obtain ⟨a, t, rfl⟩ := List.exists_cons_of_ne_nil hne
  simp [mergeField, isDictM]

/-- Unfolding of `voteNonDict` on a list of string values, with the
`str(v)` keys rewritten to the strings themselves. -/
theorem voteNonDict_str_eq (a : String) (t : List String) :
    voteNonDict ((a :: t).map MVal.str) =
      (if (pyDedupKeys (a :: t)).length = 1 then MVal.str a
       else
         match (pyDedupKeys (a :: t)).find?
             (fun k => countOcc k (a :: t) =
               ((pyDedupKeys (a :: t)).map (fun k => countOcc k (a :: t))).foldr max 0) with
         | none => MVal.null
         | some winner =>
           if (((pyDedupKeys (a :: t)).filter (fun k => k ≠ winner)).map
                 (fun k => countOcc k (a :: t))).foldr max 0
               < ((pyDedupKeys (a :: t)).map (fun k => countOcc k (a :: t))).foldr max 0 then
             match ((a :: t).map MVal.str).find? (fun v => pyStr v = winner) with
             | some w => w
             | none => MVal.null
           else getLastStr ((a :: t).map MVal.str) MVal.null) := by
  rw [List.map_cons, voteNonDict]
  rw [show (MVal.str a :: t.map MVal.str).map pyStr = a :: t from
    (List.map_cons MVal.str a t) ▸ map_pyStr_map_str (a :: t)]

/-- Majority case: a value with strictly maximal occurrence count wins. -/
theorem vote_majority (l : List String) (m : String) (hm : m ∈ l)
    (hmax : ∀ k ∈ l, k ≠ m → countOcc k l < countOcc m l) :
    voteNonDict (l.map MVal.str) = MVal.str m := by
  obtain ⟨a, t, rfl⟩ := List.exists_cons_of_ne_nil
    (show l ≠ [] from fun h => by subst h; cases hm)
  rw [voteNonDict_str_eq]
  by_cases h1 : (pyDedupKeys (a :: t)).length = 1
  · rw [if_pos h1]
    rcases List.length_eq_one.mp h1 with ⟨k0, hk0⟩
    have hak : a = k0 := by
      have := (pyDedupKeys_mem a (a :: t)).mpr (List.mem_cons_self _ _)
      rw [hk0] at this
      simpa using this
    have hmk : m = k0 := by
      have := (pyDedupKeys_mem m (a :: t)).mpr hm
      rw [hk0] at this
      simpa using this
    exact congrArg MVal.str (hak.trans hmk.symm)
  · rw [if_neg h1]
    have hcnt_le : ∀ x ∈ (pyDedupKeys (a :: t)).map (fun k => countOcc k (a :: t)),
        x ≤ countOcc m (a :: t) := by
      intro x hx
      rcases List.mem_map.mp hx with ⟨k, hk, rfl⟩
      have hkl : k ∈ a :: t := (pyDedupKeys_mem k (a :: t)).mp hk
      by_cases hkm : k = m
      · exact hkm ▸ Nat.le_refl _
      · exact Nat.le_of_lt (hmax k hkl hkm)
    have hmkeys : m ∈ pyDedupKeys (a :: t) := (pyDedupKeys_mem m (a :: t)).mpr hm
    have hmaxc : ((pyDedupKeys (a :: t)).map
        (fun k => countOcc k (a :: t))).foldr max 0 = countOcc m (a :: t) := by
      refine Nat.le_antisymm (foldr_max_le _ _ hcnt_le) ?_
      exact le_foldr_max _ _ (List.mem_map.mpr ⟨m, hmkeys, rfl⟩)
    have hfind : (pyDedupKeys (a :: t)).find?
        (fun k => countOcc k (a :: t) =
          ((pyDedupKeys (a :: t)).map (fun k => countOcc k (a :: t))).foldr max 0)
        = some m := by
      refine find?_eq_some_unique _ m hmkeys (by simp [hmaxc]) ?_
      intro x hx hpx
      by_contra hxm
      have hxl : x ∈ a :: t := (pyDedupKeys_mem x (a :: t)).mp hx
      have := hmax x hxl hxm
      rw [decide_eq_true_eq, hmaxc] at hpx
      omega
    rw [hfind]
    dsimp only
    have hpos : 0 < countOcc m (a :: t) := countOcc_pos_of_mem m _ hm
    have hsec : (((pyDedupKeys (a :: t)).filter (fun k => k ≠ m)).map
        (fun k => countOcc k (a :: t))).foldr max 0 < countOcc m (a :: t) := by
      refine foldr_max_lt _ _ hpos ?_
      intro x hx
      rcases List.mem_map.mp hx with ⟨k, hk, rfl⟩
      have hk2 := List.mem_filter.mp hk
      have hkl : k ∈ a :: t := (pyDedupKeys_mem k (a :: t)).mp hk2.1
      exact hmax k hkl (by simpa using hk2.2)
    rw [if_pos (by rw [hmaxc]; exact hsec)]
    rw [find?_map_str]
    have hinner : (a :: t).find? (fun s => decide (pyStr (MVal.str s) = m)) = some m := by
      refine find?_eq_some_unique _ m hm (by simp [pyStr]) ?_
      intro x hx hpx
      simpa [pyStr] using hpx
    rw [hinner]
    rfl

/-- Tie case: with no strictly-maximal value, the last collected value is
returned (whatever its count). -/
theorem vote_tie (l : List String) (hne : l ≠ [])
    (hno : ¬ ∃ m, m ∈ l ∧ ∀ k ∈ l, k ≠ m → countOcc k l < countOcc m l) :
    voteNonDict (l.map MVal.str) = MVal.str (l.getLastD "") := by
  obtain ⟨a, t, rfl⟩ := List.exists_cons_of_ne_nil hne
  rw [voteNonDict_str_eq]
  by_cases h1 : (pyDedupKeys (a :: t)).length = 1
  · exfalso
    rcases List.length_eq_one.mp h1 with ⟨k0, hk0⟩
    refine hno ⟨a, List.mem_cons_self _ _, ?_⟩
    intro k hk hka
    exfalso
    have h1m := (pyDedupKeys_mem k (a :: t)).mpr hk
    have h2m := (pyDedupKeys_mem a (a :: t)).mpr (List.mem_cons_self _ _)
    rw [hk0] at h1m h2m
    simp at h1m h2m
    exact hka (h1m.trans h2m.symm)
  · rw [if_neg h1]
    have hane : a ∈ pyDedupKeys (a :: t) :=
      (pyDedupKeys_mem a (a :: t)).mpr (List.mem_cons_self _ _)
    have hmaxc_pos : 0 < ((pyDedupKeys (a :: t)).map
        (fun k => countOcc k (a :: t))).foldr max 0 := by
      have hle : countOcc a (a :: t) ≤ ((pyDedupKeys (a :: t)).map
          (fun k => countOcc k (a :: t))).foldr max 0 :=
        le_foldr_max (countOcc a (a :: t)) _ (List.mem_map.mpr ⟨a, hane, rfl⟩)
      have hpos := countOcc_pos_of_mem a (a :: t) (List.mem_cons_self _ _)
      omega
    obtain ⟨x, hx, hxe⟩ := foldr_max_attained _ (Nat.pos_iff_ne_zero.mp hmaxc_pos)
    rcases List.mem_map.mp hx with ⟨kw, hkw, hkweq⟩
    have hfind_some : ((pyDedupKeys (a :: t)).find?
        (fun k => countOcc k (a :: t) =
          ((pyDedupKeys (a :: t)).map (fun k => countOcc k (a :: t))).foldr max 0)).isSome := by
      rw [List.find?_isSome]
      refine ⟨kw, hkw, ?_⟩
      rw [decide_eq_true_eq, hkweq, hxe]
    obtain ⟨winner, hwin⟩ := Option.isSome_iff_exists.mp hfind_some
    rw [hwin]
    dsimp only
    have hwin_p := List.find?_some hwin
    have hwin_mem := List.mem_of_find?_eq_some hwin
    rw [decide_eq_true_eq] at hwin_p
    have hwl : winner ∈ a :: t := (pyDedupKeys_mem winner (a :: t)).mp hwin_mem
    have hnot : ¬ ((((pyDedupKeys (a :: t)).filter (fun k => k ≠ winner)).map
        (fun k => countOcc k (a :: t))).foldr max 0
        < ((pyDedupKeys (a :: t)).map (fun k => countOcc k (a :: t))).foldr max 0) := by
      intro hlt
      refine hno ⟨winner, hwl, ?_⟩
      intro k hk hkw2
      have hkkeys : k ∈ pyDedupKeys (a :: t) := (pyDedupKeys_mem k (a :: t)).mpr hk
      have hkfilt : k ∈ (pyDedupKeys (a :: t)).filter (fun k => k ≠ winner) :=
        List.mem_filter.mpr ⟨hkkeys, by simpa using hkw2⟩
      have hle : countOcc k (a :: t) ≤ (((pyDedupKeys (a :: t)).filter
          (fun k => k ≠ winner)).map (fun k => countOcc k (a :: t))).foldr max 0 :=
        le_foldr_max _ _ (List.mem_map.mpr ⟨k, hkfilt, rfl⟩)
      rw [← hwin_p] at hlt
      omega
    rw [if_neg hnot]
    exact getLastStr_map_str (a :: t) (by simp)

/-- C2 amended: in `merge_chunk_extractions`, a scalar (string-valued) field
with a unique strictly-most-frequent value merges to that value; otherwise
(top counts tied) it merges to the LAST observed value, which need not be
among the maximal-count values. -/
theorem c2_majority_else_last_observed (l : List String) (hne : l ≠ []) :
    (∀ m ∈ l, (∀ k ∈ l, k ≠ m → countOcc k l < countOcc m l) →
        mergeField false (l.map MVal.str) = MVal.str m)
    ∧ ((¬ ∃ m, m ∈ l ∧ ∀ k ∈ l, k ≠ m → countOcc k l < countOcc m l) →
        mergeField false (l.map MVal.str) = MVal.str (l.getLastD "")) := by
  constructor
  · intro m hm hmax
    rw [mergeField_nonDict l hne]
    exact vote_majority l m hm hmax
  · intro hno
    rw [mergeField_nonDict l hne]
    exact vote_tie l hne hno

/-- C2 witness: the theorem applied at the collected values `a, b, b`. -/
theorem c2_majority_else_last_observed_witness :
    mergeField false (["a", "b", "b"].map MVal.str) = MVal.str "b" := by
  exact (c2_majority_else_last_observed ["a", "b", "b"] (by decide)).1
    "b" (by decide) (by decide)

/-! ### C4: decimal separator disambiguation -/

theorem asString_toList (s : String) : s.toList.asString = s := rfl

theorem dropLeadingSpaces_id (l : List Char)
    (h : ∀ c ∈ l, pyIsSpaceChar c = false) : dropLeadingSpaces l = l := by
  cases l with
  | nil => rfl
  | cons c cs => simp [dropLeadingSpaces, h c (List.mem_cons_self _ _)]

theorem pyStrip_id (s : String) (h : ∀ c ∈ s.toList, pyIsSpaceChar c = false) :
    pyStrip s = s := by
  rw [pyStrip, dropLeadingSpaces_id s.toList h,
    dropLeadingSpaces_id s.toList.reverse (fun c hc => h c (List.mem_reverse.mp hc)),
    List.reverse_reverse, asString_toList]

theorem digit_not_space (c : Char) (h : c.isDigit = true) : pyIsSpaceChar c = false := by
  by_contra hns
  rw [Bool.not_eq_false] at hns
  simp only [pyIsSpaceChar, Bool.or_eq_true, decide_eq_true_eq] at hns
  rcases hns with ((((hc | hc) | hc) | hc) | hc) | hc <;> subst hc <;>
    exact absurd h (by decide)

theorem digit_ne_comma (c : Char) (h : c.isDigit = true) : c ≠ ',' := by
  intro hc
  subst hc
  exact absurd h (by decide)

theorem digit_ne_dot (c : Char) (h : c.isDigit = true) : c ≠ '.' := by
  intro hc
  subst hc
  exact absurd h (by decide)

theorem map_id_of_eq {α : Type} (f : α → α) (l : List α) (h : ∀ a ∈ l, f a = a) :
    l.map f = l := by
  induction l with
  | nil => rfl
  | cons a t ih =>
    rw [List.map_cons, h a (List.mem_cons_self _ _),
      ih (fun x hx => h x (List.mem_cons_of_mem _ hx))]

/-- C4 amended: with both separators present, the comma is always the
decimal separator and every dot is removed, regardless of their order in
the text (so `1.234,56` parses to 1234.56 but `1,234.56` parses to 1.23456,
not the 1234.56 a last-separator rule would give); with only a comma
present the comma is the decimal separator (a comma-string parses exactly
as the same string with a dot); and the declared-value scenario
`150.000,50` versus `150000.50` reports no issue. -/
theorem c4_comma_decimal_separator (a b : String)
    (ha : ∀ c ∈ a.toList, c.isDigit = true) (hb : ∀ c ∈ b.toList, c.isDigit = true) :
    parse_decimal (some (a ++ "," ++ b)) = parse_decimal (some (a ++ "." ++ b))
    ∧ (parse_decimal (some "1.234,56")).map (fun d => qEq d.val ⟨123456, 100⟩)
        = some true
    ∧ (parse_decimal (some "1,234.56")).map (fun d => qEq d.val ⟨123456, 100000⟩)
        = some true
    ∧ compare_decimals (some "150.000,50") (some "150000.50") ⟨1, 100⟩ = true := by
  refine ⟨?_, by decide, by decide, by decide⟩
  have hcomma : (a ++ "," ++ b).toList = a.toList ++ [','] ++ b.toList := rfl
  have hdot : (a ++ "." ++ b).toList = a.toList ++ ['.'] ++ b.toList := rfl
  have hmemchar : ∀ (x : Char) (c : Char), c ∈ (a.toList ++ [x] ++ b.toList) →
      c ∈ a.toList ∨ c = x ∨ c ∈ b.toList := by
    intro x c hc
    rcases List.mem_append.mp hc with hc | hc
    · rcases List.mem_append.mp hc with hc | hc
      · exact Or.inl hc
      · simp at hc
        exact Or.inr (Or.inl hc)
    · exact Or.inr (Or.inr hc)
  have hnospace1 : ∀ c ∈ (a ++ "," ++ b).toList, pyIsSpaceChar c = false := by
    rw [hcomma]
    intro c hc
    rcases hmemchar ',' c hc with hc | hc | hc
    · exact digit_not_space c (ha c hc)
    · subst hc; rfl
    · exact digit_not_space c (hb c hc)
  have hnospace2 : ∀ c ∈ (a ++ "." ++ b).toList, pyIsSpaceChar c = false := by
    rw [hdot]
    intro c hc
    rcases hmemchar '.' c hc with hc | hc | hc
    · exact digit_not_space c (ha c hc)
    · subst hc; rfl
    · exact digit_not_space c (hb c hc)
  have hne1 : ¬ (a ++ "," ++ b) = "" := by
    intro h
    have h2 : (a ++ "," ++ b).toList = [] := by rw [h]; rfl
    rw [hcomma] at h2
    simp at h2
  have hne2 : ¬ (a ++ "." ++ b) = "" := by
    intro h
    have h2 : (a ++ "." ++ b).toList = [] := by rw [h]; rfl
    rw [hdot] at h2
    simp at h2
  have hnodot : (a ++ "," ++ b).toList.contains '.' = false := by
    rw [hcomma]; simp only [List.contains, List.elem_eq_mem, decide_eq_false_iff_not]
    intro hmem
    rcases hmemchar ',' '.' hmem with hc | hc | hc
    · exact absurd (ha _ hc) (by decide)
    · exact absurd hc (by decide)
    · exact absurd (hb _ hc) (by decide)
  have hnocomma : (a ++ "." ++ b).toList.contains ',' = false := by
    rw [hdot]; simp only [List.contains, List.elem_eq_mem, decide_eq_false_iff_not]
    intro hmem
    rcases hmemchar '.' ',' hmem with hc | hc | hc
    · exact absurd (ha _ hc) (by decide)
    · exact absurd hc (by decide)
    · exact absurd (hb _ hc) (by decide)
  have hhascomma : (a ++ "," ++ b).toList.contains ',' = true := by
    rw [hcomma]; simp only [List.contains, List.elem_eq_mem, decide_eq_true_eq]
    exact List.mem_append.mpr (Or.inl (List.mem_append.mpr (Or.inr (by simp))))
  have hmap : ((a ++ "," ++ b).toList.map
      (fun c => if c = ',' then '.' else c)).asString = a ++ "." ++ b := by
    rw [hcomma, List.map_append, List.map_append]
    rw [map_id_of_eq _ a.toList (fun c hc => if_neg (digit_ne_comma c (ha c hc)))]
    rw [map_id_of_eq _ b.toList (fun c hc => if_neg (digit_ne_comma c (hb c hc)))]
    rw [show [','].map (fun c => if c = ',' then '.' else c) = ['.'] from rfl]
    rw [← hdot, asString_toList]
  have e1 : parse_decimal (some (a ++ "," ++ b)) = decOfCleaned (a ++ "." ++ b) := by
    simp only [parse_decimal]
    rw [if_neg hne1, pyStrip_id _ hnospace1, hhascomma, hnodot]
    rw [if_neg (by simp)]
    rw [if_pos (by simp)]
    rw [hmap]
  have e2 : parse_decimal (some (a ++ "." ++ b)) = decOfCleaned (a ++ "." ++ b) := by
    simp only [parse_decimal]
    rw [if_neg hne2, pyStrip_id _ hnospace2, hnocomma]
    rw [if_neg (by simp)]
    rw [if_neg (by simp)]
  rw [e1, e2]

/-- C4 witness: the theorem applied at `150000` and `50`. -/
theorem c4_comma_decimal_separator_witness :
    parse_decimal (some ("150000" ++ "," ++ "50"))
      = parse_decimal (some ("150000" ++ "." ++ "50")) := by
  exact (c4_comma_decimal_separator "150000" "50" (by decide) (by decide)).1

/-! ### C10: tax properties with empty normalised references are invisible -/

/-- The group invariant of `taxByCatastral`: every key is non-empty and
every grouped item's normalised reference equals its key. -/
def GroupsInv (gs : List (String × List TaxItem)) : Prop :=
  ∀ p ∈ gs, p.1 ≠ "" ∧ ∀ it ∈ p.2, normalize_catastral_ref it.property.ref_catastral = p.1

theorem insertGroup_inv (gs : List (String × List TaxItem)) (k : String) (it : TaxItem)
    (hk : k ≠ "") (hit : normalize_catastral_ref it.property.ref_catastral = k)
    (h : GroupsInv gs) : GroupsInv (insertGroup gs k it) := by
  induction gs with
  | nil =>
    intro p hp
    simp [insertGroup] at hp
    subst hp
    exact ⟨hk, by intro it2 hit2; simp at hit2; subst hit2; exact hit⟩
  | cons g0 rest ih =>
    rcases g0 with ⟨k0, l0⟩
    by_cases hk0 : k0 = k
    · subst hk0
      rw [show insertGroup ((k0, l0) :: rest) k0 it = (k0, l0 ++ [it]) :: rest by
        simp [insertGroup]]
      intro p hp
      rcases List.mem_cons.mp hp with hp | hp
      · subst hp
        refine ⟨(h (k0, l0) (List.mem_cons_self _ _)).1, ?_⟩
        intro it2 hit2
        rcases List.mem_append.mp hit2 with hit2 | hit2
        · exact (h (k0, l0) (List.mem_cons_self _ _)).2 it2 hit2
        · simp at hit2
          subst hit2
          exact hit
      · exact h p (List.mem_cons_of_mem _ hp)
    · rw [show insertGroup ((k0, l0) :: rest) k it = (k0, l0) :: insertGroup rest k it by
        simp [insertGroup, hk0]]
      intro p hp
      rcases List.mem_cons.mp hp with hp | hp
      · exact hp ▸ h (k0, l0) (List.mem_cons_self _ _)
      · exact ih (fun q hq => h q (List.mem_cons_of_mem _ hq)) p hp

theorem foldl_groups_inv (items : List TaxItem) (gs : List (String × List TaxItem))
    (h : GroupsInv gs) :
    GroupsInv (items.foldl
      (fun gs it =>
        let ref := normalize_catastral_ref it.property.ref_catastral
        if ref = "" then gs else insertGroup gs ref it) gs) := by
  induction items generalizing gs with
  | nil => exact h
  | cons it rest ih =>
    simp only [List.foldl_cons]
    by_cases hr : normalize_catastral_ref it.property.ref_catastral = ""
    · simpa [hr] using ih gs h
    · simpa [hr] using ih _ (insertGroup_inv gs _ it hr rfl h)

theorem taxByCatastral_inv (forms : List SourceRec) : GroupsInv (taxByCatastral forms) :=
  foldl_groups_inv (taxItems forms) [] (by intro p hp; cases hp)

/-- Matches returned for any deed reference are members of some group of the
index (so an item excluded from every group is never matched). -/
theorem propMatches_subset_groups (ratio : String → String → Q)
    (gs : List (String × List TaxItem)) (ref : String) :
    ∀ it ∈ propMatches ratio gs ref, ∃ p ∈ gs, it ∈ p.2 := by
  intro it hit
  rw [propMatches] at hit
  by_cases hc : (lookupGroups gs ref).isEmpty ∧ ref ≠ ""
  · rw [if_pos hc] at hit
    cases hfind : gs.find? (fun g => fuzzy_match_catastral ratio ref g.1 ⟨85, 100⟩) with
    | none => rw [hfind] at hit; cases hit
    | some g =>
      rw [hfind] at hit
      exact ⟨g, List.mem_of_find?_eq_some hfind, hit⟩
  · rw [if_neg hc] at hit
    rw [lookupGroups] at hit
    cases hfind : gs.find? (fun g => g.1 = ref) with
    | none => rw [hfind] at hit; cases hit
    | some g =>
      rw [hfind] at hit
      exact ⟨g, List.mem_of_find?_eq_some hfind, hit⟩

theorem concatMap_append {α β : Type} (f : α → List β) (l1 l2 : List α) :
    concatMap f (l1 ++ l2) = concatMap f l1 ++ concatMap f l2 := by
  induction l1 with
  | nil => rfl
  | cons a t ih => simp [concatMap, ih]

theorem taxItems_append_one (forms : List SourceRec) (F : SourceRec) :
    taxItems (forms ++ [F]) = taxItems forms ++
      F.properties.map (fun pr => ⟨form_id_of forms.length F, F, pr⟩) := by
  rw [taxItems, List.enum_append, concatMap_append, taxItems]
  congr 1
  simp [concatMap, List.enumFrom]

theorem foldl_skip_empty_refs (items : List TaxItem)
    (gs0 : List (String × List TaxItem))
    (h : ∀ it ∈ items, normalize_catastral_ref it.property.ref_catastral = "") :
    items.foldl
      (fun gs it =>
        let ref := normalize_catastral_ref it.property.ref_catastral
        if ref = "" then gs else insertGroup gs ref it) gs0 = gs0 := by
  induction items generalizing gs0 with
  | nil => rfl
  | cons it rest ih =>
    simp only [List.foldl_cons, h it (List.mem_cons_self _ _), if_pos]
    exact ih gs0 (fun x hx => h x (List.mem_cons_of_mem _ hx))

/-- C10: a tax-form-side property whose cadastral reference is missing or
normalises to the empty string is invisible to the engine: it enters no
index group (all index keys are non-empty and hold only items whose
normalised reference equals the key), matching only draws items from index
groups, and appending a form holding only such properties leaves both the
index and the whole engine output unchanged. -/
theorem c10_empty_ref_tax_property_invisible (ratio : String → String → Q)
    (escs forms : List SourceRec) (F : SourceRec)
    (hF : ∀ p ∈ F.properties, normalize_catastral_ref p.ref_catastral = "") :
    taxByCatastral (forms ++ [F]) = taxByCatastral forms
    ∧ compare_escritura_with_tax_forms ratio ⟨escs, forms ++ [F]⟩
        = compare_escritura_with_tax_forms ratio ⟨escs, forms⟩
    ∧ (∀ p ∈ taxByCatastral forms, p.1 ≠ ""
        ∧ ∀ it ∈ p.2, normalize_catastral_ref it.property.ref_catastral = p.1)
    ∧ (∀ ref, ∀ it ∈ propMatches ratio (taxByCatastral forms) ref,
        ∃ p ∈ taxByCatastral forms, it ∈ p.2) := by
  have hgs : taxByCatastral (forms ++ [F]) = taxByCatastral forms := by
    rw [taxByCatastral, taxItems_append_one, List.foldl_append, ← taxByCatastral]
    refine foldl_skip_empty_refs _ _ ?_
    intro it hit
    rcases List.mem_map.mp hit with ⟨pr, hpr, rfl⟩
    exact hF pr hpr
  refine ⟨hgs, ?_, taxByCatastral_inv forms,
    fun ref => propMatches_subset_groups ratio (taxByCatastral forms) ref⟩
  simp only [compare_escritura_with_tax_forms]
  rw [hgs]

/-- C10 witness: the theorem applied at a concrete input and a form whose
properties all lack a usable cadastral reference. -/
theorem c10_empty_ref_tax_property_invisible_witness :
    compare_escritura_with_tax_forms ratioZero
        ⟨[escSeller], [formX] ++ [{ properties :=
            [{ id := some "px" }, { ref_catastral := some " - " }] }]⟩
      = compare_escritura_with_tax_forms ratioZero ⟨[escSeller], [formX]⟩ := by
  exact (c10_empty_ref_tax_property_invisible ratioZero [escSeller] [formX]
    { properties := [{ id := some "px" }, { ref_catastral := some " - " }] }
    (by decide)).2.1

/-! ### Membership and monad plumbing lemmas -/

theorem mem_concatMap {α β : Type} (f : α → List β) (l : List α) (b : β) :
    b ∈ concatMap f l ↔ ∃ a ∈ l, b ∈ f a := by
  induction l with
  | nil => simp [concatMap]
  | cons a t ih =>
    simp only [concatMap, List.mem_append, ih]
    constructor
    · rintro (h | ⟨x, hx, hb⟩)
      · exact ⟨a, List.mem_cons_self _ _, h⟩
      · exact ⟨x, List.mem_cons_of_mem _ hx, hb⟩
    · rintro ⟨x, hx, hb⟩
      rcases List.mem_cons.mp hx with hx | hx
      · exact Or.inl (hx ▸ hb)
      · exact Or.inr ⟨x, hx, hb⟩

theorem except_bind_ok {α β : Type} (a : α) (f : α → Except String β) :
    (Except.ok a >>= f) = f a := rfl

theorem except_bind_err {α β : Type} (e : String) (f : α → Except String β) :
    ((Except.error e : Except String α) >>= f) = Except.error e := rfl

theorem mapMExcept_ok_mem {α β : Type} (f : α → Except String β) (l : List α)
    (ys : List β) (h : mapMExcept f l = Except.ok ys) :
    ∀ y ∈ ys, ∃ a ∈ l, f a = Except.ok y := by
  induction l generalizing ys with
  | nil =>
    intro y hy
    simp only [mapMExcept] at h
    cases h
    cases hy
  | cons a t ih =>
    intro y hy
    rw [mapMExcept] at h
    cases hfa : f a with
    | error e => rw [hfa, except_bind_err] at h; cases h
    | ok b =>
      rw [hfa, except_bind_ok] at h
      cases hrest : mapMExcept f t with
      | error e => rw [hrest, except_bind_err] at h; cases h
      | ok bs =>
        rw [hrest, except_bind_ok] at h
        cases h
        rcases List.mem_cons.mp hy with hy | hy
        · exact ⟨a, List.mem_cons_self _ _, hy ▸ hfa⟩
        · rcases ih bs hrest y hy with ⟨x, hx, hfx⟩
          exact ⟨x, List.mem_cons_of_mem _ hx, hfx⟩

theorem compare_ok_decomp (ratio : String → String → Q) (data : CompInput)
    (reports : List Report)
    (h : compare_escritura_with_tax_forms ratio data = Except.ok reports) :
    ∃ rs, escReports ratio (taxByCatastral data.tax_forms) data.escrituras = Except.ok rs
      ∧ reports = rs ++ orphanReports (taxByCatastral data.tax_forms)
          (matchedRefs ratio (taxByCatastral data.tax_forms) data.escrituras) := by
  rw [compare_escritura_with_tax_forms] at h
  cases hrs : escReports ratio (taxByCatastral data.tax_forms) data.escrituras with
  | error e => rw [hrs, except_bind_err] at h; cases h
  | ok rs =>
    rw [hrs, except_bind_ok] at h
    cases h
    exact ⟨rs, rfl, rfl⟩

theorem matchedRefs_mem (ratio : String → String → Q)
    (gs : List (String × List TaxItem)) (escs : List SourceRec) (k : String) :
    k ∈ matchedRefs ratio gs escs ↔
      ∃ esc ∈ escs, ∃ pr ∈ esc.properties,
        normalize_catastral_ref pr.ref_catastral = k ∧ propMatches ratio gs k ≠ [] := by
  rw [matchedRefs, mem_concatMap]
  constructor
  · rintro ⟨esc, hesc, hk⟩
    rw [mem_concatMap] at hk
    rcases hk with ⟨pr, hpr, hk⟩
    by_cases hm : (propMatches ratio gs (normalize_catastral_ref pr.ref_catastral)).isEmpty
    · rw [if_pos hm] at hk
      cases hk
    · rw [if_neg hm] at hk
      simp only [List.mem_singleton] at hk
      subst hk
      exact ⟨esc, hesc, pr, hpr, rfl, by simpa [List.isEmpty_iff] using hm⟩
  · rintro ⟨esc, hesc, pr, hpr, hnorm, hne⟩
    refine ⟨esc, hesc, ?_⟩
    rw [mem_concatMap]
    refine ⟨pr, hpr, ?_⟩
    rw [hnorm, if_neg (by simpa [List.isEmpty_iff] using hne)]
    simp

theorem orphanReports_mem (gs : List (String × List TaxItem))
    (matched : List String) (r : Report) :
    r ∈ orphanReports gs matched ↔
      ∃ p ∈ gs, matched.contains p.1 = false ∧ ∃ it ∈ p.2, r = orphanReport p.1 it := by
  rw [orphanReports, mem_concatMap]
  constructor
  · rintro ⟨p, hp, hr⟩
    by_cases hc : matched.contains p.1
    · rw [if_pos hc] at hr
      cases hr
    · rw [if_neg hc] at hr
      rcases List.mem_map.mp hr with ⟨it, hit, hr⟩
      exact ⟨p, hp, by simpa using hc, it, hit, hr.symm⟩
  · rintro ⟨p, hp, hc, it, hit, hr⟩
    refine ⟨p, hp, ?_⟩
    rw [if_neg (by rw [hc]; exact Bool.false_ne_true)]
    exact List.mem_map.mpr ⟨it, hit, hr.symm⟩

theorem orphanReport_ref (k : String) (it : TaxItem) :
    (orphanReport k it).ref_catastral = k := rfl

theorem orphanReport_status (k : String) (it : TaxItem) :
    (orphanReport k it).status = Severity.warning := rfl

theorem orphanReport_issues (k : String) (it : TaxItem) :
    (orphanReport k it).issues
      = [⟨"ORPHAN_TAX_FORM", Severity.warning, "ref_catastral", strOpt none, k,
          "Tax form property " ++ k ++ " has no matching escritura", some it.form_id⟩] := rfl

/-- Second index invariant: keys are distinct and groups non-empty. -/
def GroupsInv2 (gs : List (String × List TaxItem)) : Prop :=
  (gs.map Prod.fst).Nodup ∧ ∀ p ∈ gs, p.2 ≠ []

theorem insertGroup_keys (gs : List (String × List TaxItem)) (k : String) (it : TaxItem) :
    (insertGroup gs k it).map Prod.fst
      = if k ∈ gs.map Prod.fst then gs.map Prod.fst else gs.map Prod.fst ++ [k] := by
  induction gs with
  | nil => simp [insertGroup]
  | cons g0 rest ih =>
    rcases g0 with ⟨k0, l0⟩
    by_cases hk0 : k0 = k
    · subst hk0
      simp [insertGroup]
    · rw [show insertGroup ((k0, l0) :: rest) k it = (k0, l0) :: insertGroup rest k it by
        simp [insertGroup, hk0]]
      by_cases hmem : k ∈ rest.map Prod.fst
      · simp [ih, hmem, Ne.symm hk0]
      · simp [ih, hmem, Ne.symm hk0, hk0]

theorem insertGroup_nonempty (gs : List (String × List TaxItem)) (k : String)
    (it : TaxItem) (h : ∀ p ∈ gs, p.2 ≠ []) :
    ∀ p ∈ insertGroup gs k it, p.2 ≠ [] := by
  induction gs with
  | nil =>
    intro p hp
    simp [insertGroup] at hp
    subst hp
    simp
  | cons g0 rest ih =>
    rcases g0 with ⟨k0, l0⟩
    intro p hp
    by_cases hk0 : k0 = k
    · subst hk0
      rw [show insertGroup ((k0, l0) :: rest) k0 it = (k0, l0 ++ [it]) :: rest by
        simp [insertGroup]] at hp
      rcases List.mem_cons.mp hp with hp | hp
      · subst hp
        simp
      · exact h p (List.mem_cons_of_mem _ hp)
    · rw [show insertGroup ((k0, l0) :: rest) k it = (k0, l0) :: insertGroup rest k it by
        simp [insertGroup, hk0]] at hp
      rcases List.mem_cons.mp hp with hp | hp
      · exact hp ▸ h (k0, l0) (List.mem_cons_self _ _)
      · exact ih (fun q hq => h q (List.mem_cons_of_mem _ hq)) p hp

theorem insertGroup_inv2 (gs : List (String × List TaxItem)) (k : String) (it : TaxItem)
    (h : GroupsInv2 gs) : GroupsInv2 (insertGroup gs k it) := by
  refine ⟨?_, insertGroup_nonempty gs k it h.2⟩
  rw [insertGroup_keys]
  by_cases hmem : k ∈ gs.map Prod.fst
  · simpa [hmem] using h.1
  · rw [if_neg hmem]
    refine List.Nodup.append h.1 (List.nodup_singleton k) ?_
    intro x hx hk
    simp at hk
    exact hmem (hk ▸ hx)

theorem foldl_groups_inv2 (items : List TaxItem) (gs : List (String × List TaxItem))
    (h : GroupsInv2 gs) :
    GroupsInv2 (items.foldl
      (fun gs it =>
        let ref := normalize_catastral_ref it.property.ref_catastral
        if ref = "" then gs else insertGroup gs ref it) gs) := by
  induction items generalizing gs with
  | nil => exact h
  | cons it rest ih =>
    simp only [List.foldl_cons]
    by_cases hr : normalize_catastral_ref it.property.ref_catastral = ""
    · simpa [hr] using ih gs h
    · simpa [hr] using ih _ (insertGroup_inv2 gs _ it h)

theorem taxByCatastral_inv2 (forms : List SourceRec) :
    GroupsInv2 (taxByCatastral forms) :=
  foldl_groups_inv2 (taxItems forms) [] ⟨List.nodup_nil, by intro p hp; cases hp⟩

theorem lookupGroups_eq_of_mem (gs : List (String × List TaxItem)) (k : String)
    (g : List TaxItem) (hnd : (gs.map Prod.fst).Nodup) (hmem : (k, g) ∈ gs) :
    lookupGroups gs k = g := by
  induction gs with
  | nil => cases hmem
  | cons g0 rest ih =>
    rcases g0 with ⟨k0, l0⟩
    have hnd2 := List.nodup_cons.mp (show (k0 :: rest.map Prod.fst).Nodup from hnd)
    by_cases hk0 : k0 = k
    · subst hk0
      rcases List.mem_cons.mp hmem with hh | hh
      · rw [lookupGroups, List.find?_cons_of_pos _ (by simp)]
        have hgl : g = l0 := ((Prod.mk.injEq _ _ _ _).mp hh.symm).2.symm
        rw [hgl]
      · exfalso
        exact hnd2.1 (List.mem_map.mpr ⟨(k0, g), hh, rfl⟩)
    · rw [lookupGroups, List.find?_cons_of_neg _ (by simp [hk0])]
      have hmem2 : (k, g) ∈ rest := (List.mem_cons.mp hmem).resolve_left (by
        intro hh
        exact hk0 (congrArg Prod.fst hh).symm)
      exact ih hnd2.2 hmem2

theorem propMatches_key (ratio : String → String → Q) (forms : List SourceRec)
    (k : String) (g : List TaxItem)
    (hmem : (k, g) ∈ taxByCatastral forms) :
    propMatches ratio (taxByCatastral forms) k = g ∧ g ≠ [] := by
  have hinv := taxByCatastral_inv2 forms
  have hlk : lookupGroups (taxByCatastral forms) k = g :=
    lookupGroups_eq_of_mem _ k g hinv.1 hmem
  have hne : g ≠ [] := hinv.2 (k, g) hmem
  refine ⟨?_, hne⟩
  rw [propMatches, hlk, if_neg]
  intro hcond
  exact hne (List.isEmpty_iff.mp hcond.1)

/-! ### Per-rule issue characterisations -/

theorem dateIssues_spec (esc form : SourceRec) (fid : String) :
    ∀ i ∈ dateIssues esc form fid,
      i.code = "DATE_MISMATCH" ∧ i.severity = Severity.error
      ∧ i.escritura_value = strOpt esc.date_of_sale
      ∧ i.tax_form_value = strOpt form.date_of_sale := by
  intro i hi
  simp only [dateIssues] at hi
  split at hi
  · simp only [List.mem_singleton] at hi
    subst hi
    exact ⟨rfl, rfl, rfl, rfl⟩
  · cases hi

theorem valueIssues_spec (prop tax_prop : PropRec) (fid : String) :
    ∀ i ∈ valueIssues prop tax_prop fid,
      i.code = "VALUE_MISMATCH" ∧ i.severity = Severity.error
      ∧ i.escritura_value = strOpt prop.declared_value
      ∧ i.tax_form_value = strOpt tax_prop.declared_value := by
  intro i hi
  simp only [valueIssues] at hi
  split at hi
  · simp only [List.mem_singleton] at hi
    subst hi
    exact ⟨rfl, rfl, rfl, rfl⟩
  · cases hi

theorem sellerIssues_spec (esc form : SourceRec) (fid : String) :
    ∀ i ∈ sellerIssues esc form fid,
      i.code = "SELLER_MISMATCH" ∧ i.severity = Severity.error
      ∧ i.escritura_value = strList (sellerSet esc.sellers)
      ∧ i.tax_form_value = strList (sellerSet form.sellers) := by
  intro i hi
  simp only [sellerIssues] at hi
  split at hi
  · simp only [List.mem_singleton] at hi
    subst hi
    exact ⟨rfl, rfl, rfl, rfl⟩
  · cases hi

theorem buyerIssues_spec (esc form : SourceRec) (fid : String) :
    ∀ i ∈ buyerIssues esc form fid,
      i.code = "BUYER_MISMATCH" ∧ i.severity = Severity.error
      ∧ i.escritura_value = strList (buyerSet esc.buyers)
      ∧ i.tax_form_value = strList (buyerSet form.buyers) := by
  intro i hi
  simp only [buyerIssues] at hi
  split at hi
  · simp only [List.mem_singleton] at hi
    subst hi
    exact ⟨rfl, rfl, rfl, rfl⟩
  · cases hi

theorem notaryIssues_spec (esc form : SourceRec) (fid : String) :
    ∀ i ∈ notaryIssues esc form fid,
      i.code = "NOTARY_MISMATCH" ∧ i.severity = Severity.warning
      ∧ i.escritura_value = strOpt (pyOrOpt esc.notary_name_nested esc.notary_name)
      ∧ i.tax_form_value = strOpt (pyOrOpt form.notary_name_nested form.notary_name) := by
  intro i hi
  simp only [notaryIssues] at hi
  split at hi
  · simp only [List.mem_singleton] at hi
    subst hi
    exact ⟨rfl, rfl, rfl, rfl⟩
  · cases hi

theorem protocolIssues_spec (esc form : SourceRec) (fid : String) :
    ∀ i ∈ protocolIssues esc form fid,
      i.code = "PROTOCOL_MISMATCH" ∧ i.severity = Severity.error
      ∧ i.escritura_value = strOpt esc.protocol_number
      ∧ i.tax_form_value = strOpt form.protocol_number := by
  intro i hi
  simp only [protocolIssues] at hi
  split at hi
  · simp only [List.mem_singleton] at hi
    subst hi
    exact ⟨rfl, rfl, rfl, rfl⟩
  · cases hi

theorem addressIssues_spec (ratio : String → String → Q)
    (prop tax_prop : PropRec) (fid : String) :
    ∀ i ∈ addressIssues ratio prop tax_prop fid,
      i.code = "ADDRESS_MISMATCH" ∧ i.severity = Severity.warning
      ∧ i.escritura_value = strOpt prop.address
      ∧ i.tax_form_value = strOpt tax_prop.address := by
  intro i hi
  simp only [addressIssues] at hi
  split at hi
  · split at hi
    · simp only [List.mem_singleton] at hi
      subst hi
      exact ⟨rfl, rfl, rfl, rfl⟩
    · cases hi
  · cases hi

theorem typeIssues_spec (prop tax_prop : PropRec) (fid : String) :
    ∀ i ∈ typeIssues prop tax_prop fid,
      i.code = "TYPE_MISMATCH" ∧ i.severity = Severity.warning
      ∧ i.escritura_value = strOpt prop.type
      ∧ i.tax_form_value = strOpt tax_prop.type := by
  intro i hi
  simp only [typeIssues] at hi
  split at hi
  · simp only [List.mem_singleton] at hi
    subst hi
    exact ⟨rfl, rfl, rfl, rfl⟩
  · cases hi

theorem ptypeIssues_spec (prop tax_prop : PropRec) (fid : String) :
    ∀ i ∈ ptypeIssues prop tax_prop fid,
      i.code = "TYPE_MISMATCH" ∧ i.severity = Severity.error
      ∧ i.escritura_value = strOpt prop.property_type
      ∧ i.tax_form_value = strOpt tax_prop.property_type := by
  intro i hi
  rw [ptypeIssues] at hi
  split at hi
  case _ e t heq1 heq2 =>
    split at hi
    · simp only [List.mem_singleton] at hi
      subst hi
      exact ⟨rfl, rfl, by rw [heq1]; rfl, by rw [heq2]; rfl⟩
    · cases hi
  case _ => cases hi

theorem surfaceIssues_spec (prop tax_prop : PropRec) (fid : String) :
    ∀ i ∈ surfaceIssues prop tax_prop fid,
      i.code = "SUPERFICIE_MISMATCH" ∧ i.severity = Severity.warning
      ∧ i.escritura_value = strOpt (supGet prop i.field)
      ∧ i.tax_form_value = strOpt (supGet tax_prop i.field) := by
  intro i hi
  rcases (surfaceLoop_spec prop tax_prop fid supKeys).2.2 i hi with ⟨l1, l2, _, _, _, hival⟩
  rw [hival]
  exact ⟨rfl, rfl, rfl, rfl⟩

theorem valorCatIssues_spec (prop tax_prop : PropRec) (fid : String) :
    ∀ i ∈ valorCatIssues prop tax_prop fid,
      i.code = "VALOR_CATASTRAL_MISMATCH" ∧ i.severity = Severity.warning
      ∧ i.escritura_value = strOpt prop.valor_catastral
      ∧ i.tax_form_value = strOpt tax_prop.valor_catastral := by
  intro i hi
  simp only [valorCatIssues] at hi
  split at hi
  · simp only [List.mem_singleton] at hi
    subst hi
    exact ⟨rfl, rfl, rfl, rfl⟩
  · cases hi

theorem cuotaIssues_spec (prop tax_prop : PropRec) (fid : String) :
    ∀ i ∈ cuotaIssues prop tax_prop fid,
      i.code = "CUOTA_MISMATCH" ∧ i.severity = Severity.error
      ∧ ∃ p ∈ prop.ownership_distribution, ∃ t_pct,
          lookupAssoc tax_prop.ownership_distribution p.1 = some t_pct
          ∧ i.escritura_value = p.2 ∧ i.tax_form_value = t_pct := by
  intro i hi
  rw [cuotaIssues] at hi
  split at hi
  · rw [mem_concatMap] at hi
    rcases hi with ⟨p, hp, hi⟩
    split at hi
    case _ t_pct heq =>
      split at hi
      · simp only [List.mem_singleton] at hi
        subst hi
        exact ⟨rfl, rfl, p, hp, t_pct, heq, rfl, rfl⟩
      · cases hi
    case _ => cases hi
  · cases hi

theorem docnumIssues_spec (esc form : SourceRec) (fid : String) :
    ∀ i ∈ docnumIssues esc form fid,
      i.code = "DOCUMENT_NUMBER_MISMATCH" ∧ i.severity = Severity.warning
      ∧ i.escritura_value = strOpt esc.document_number
      ∧ i.tax_form_value = strOpt form.document_number := by
  intro i hi
  rw [docnumIssues] at hi
  split at hi
  case _ e t heq1 heq2 =>
    split at hi
    · simp only [List.mem_singleton] at hi
      subst hi
      exact ⟨rfl, rfl, by rw [heq1]; rfl, by rw [heq2]; rfl⟩
    · cases hi
  case _ => cases hi

theorem contains_iff_mem (l : List String) (a : String) :
    l.contains a = true ↔ a ∈ l := by
  rw [show l.contains a = l.elem a from rfl, List.elem_eq_mem, decide_eq_true_eq]

theorem dictInsert_mem {α : Type} (d : List (String × α)) (k : String) (v : α)
    (x : String × α) (h : x ∈ dictInsert d k v) : x ∈ d ∨ x = (k, v) := by
  induction d with
  | nil =>
    simp [dictInsert] at h
    exact Or.inr h
  | cons p rest ih =>
    rcases p with ⟨k0, v0⟩
    by_cases hk0 : k0 = k
    · subst hk0
      rw [show dictInsert ((k0, v0) :: rest) k0 v = (k0, v) :: rest by
        simp [dictInsert]] at h
      rcases List.mem_cons.mp h with h | h
      · exact Or.inr h
      · exact Or.inl (List.mem_cons_of_mem _ h)
    · rw [show dictInsert ((k0, v0) :: rest) k v = (k0, v0) :: dictInsert rest k v by
        simp [dictInsert, hk0]] at h
      rcases List.mem_cons.mp h with h | h
      · exact Or.inl (h ▸ List.mem_cons_self _ _)
      · rcases ih h with h | h
        · exact Or.inl (List.mem_cons_of_mem _ h)
        · exact Or.inr h

theorem foldl_dictInsert_mem {α : Type} (pairs : List (String × α))
    (acc : List (String × α)) (x : String × α)
    (h : x ∈ pairs.foldl (fun d p => dictInsert d p.1 p.2) acc) :
    x ∈ acc ∨ x ∈ pairs := by
  induction pairs generalizing acc with
  | nil => exact Or.inl h
  | cons p rest ih =>
    simp only [List.foldl_cons] at h
    rcases ih (dictInsert acc p.1 p.2) h with h | h
    · rcases dictInsert_mem acc p.1 p.2 x h with h | h
      · exact Or.inl h
      · exact Or.inr (h ▸ List.mem_cons_self _ _)
    · exact Or.inr (List.mem_cons_of_mem _ h)

theorem buildDictD_mem {α : Type} (pairs : List (String × α)) (x : String × α)
    (h : x ∈ buildDictD pairs) : x ∈ pairs := by
  rcases foldl_dictInsert_mem pairs [] x h with h | h
  · cases h
  · exact h

theorem lookupAssoc_mem {α : Type} (d : List (String × α)) (k : String) (v : α)
    (h : lookupAssoc d k = some v) : (k, v) ∈ d := by
  rw [lookupAssoc] at h
  cases hf : d.find? (fun p => p.1 = k) with
  | none => rw [hf] at h; cases h
  | some p =>
    rw [hf] at h
    cases h
    have hp := List.find?_some hf
    rw [decide_eq_true_eq] at hp
    have := List.mem_of_find?_eq_some hf
    rcases p with ⟨k0, v0⟩
    cases hp
    exact this

theorem sellerPctDict_mem (entries : List SBEntry) (pid : String)
    (d : List (String × Option Dec)) (h : sellerPctDict entries pid = Except.ok d) :
    ∀ kv ∈ d, ∃ s ∈ entries, s.property_id = some pid
      ∧ s.seller_nif = some kv.1 ∧ kv.2 = parse_decimal s.percentage_sold := by
  intro kv hkv
  rw [sellerPctDict] at h
  cases hm : mapMExcept
      (fun s =>
        match s.seller_nif with
        | some nif => Except.ok (nif, parse_decimal s.percentage_sold)
        | none => Except.error "KeyError: seller_nif")
      (entries.filter (fun s => s.property_id = some pid)) with
  | error e => rw [hm, except_bind_err] at h; cases h
  | ok pairs =>
    rw [hm, except_bind_ok] at h
    cases h
    have hkp := buildDictD_mem pairs kv hkv
    rcases mapMExcept_ok_mem _ _ _ hm kv hkp with ⟨s, hs, hfs⟩
    have hsmem := List.mem_filter.mp hs
    refine ⟨s, hsmem.1, by simpa using hsmem.2, ?_, ?_⟩
    · cases hnif : s.seller_nif with
      | none => rw [hnif] at hfs; cases hfs
      | some nif =>
        rw [hnif] at hfs
        cases hfs
        rfl
    · cases hnif : s.seller_nif with
      | none => rw [hnif] at hfs; cases hfs
      | some nif =>
        rw [hnif] at hfs
        cases hfs
        rfl

theorem saleBreakdownIssues_spec (esc form : SourceRec) (prop : PropRec)
    (fid : String) (l : List Issue)
    (h : saleBreakdownIssues esc form prop fid = Except.ok l) :
    ∀ i ∈ l, i.code = "SALE_BREAKDOWN_MISMATCH" ∧ i.severity = Severity.error
      ∧ ∃ d1 d2 : Dec,
          i.escritura_value = d1.lit ∧ i.tax_form_value = d2.lit
          ∧ (∃ s ∈ esc.sale_breakdown, parse_decimal s.percentage_sold = some d1)
          ∧ (∃ s ∈ form.sale_breakdown, parse_decimal s.percentage_sold = some d2) := by
  intro i hi
  cases hpid : prop.id with
  | none =>
    simp only [saleBreakdownIssues, hpid] at h
    cases h
    cases hi
  | some pid =>
    simp only [saleBreakdownIssues, hpid] at h
    by_cases hpe : pid = ""
    · rw [if_pos hpe] at h
      cases h
      cases hi
    · rw [if_neg hpe] at h
      cases he : sellerPctDict esc.sale_breakdown pid with
      | error e => rw [he, except_bind_err] at h; cases h
      | ok e_by =>
        rw [he, except_bind_ok] at h
        cases ht : sellerPctDict form.sale_breakdown pid with
        | error e => rw [ht, except_bind_err] at h; cases h
        | ok t_by =>
          rw [ht, except_bind_ok] at h
          cases h
          rw [mem_concatMap] at hi
          rcases hi with ⟨kv, hkv, hi⟩
          split at hi
          case _ e_d t_d heq1 heq2 =>
            split at hi
            · simp only [List.mem_singleton] at hi
              subst hi
              rcases sellerPctDict_mem _ _ _ he kv hkv with ⟨s, hs, _, _, hval⟩
              have hjoin : lookupAssoc t_by kv.1 = some (some t_d) := by
                cases hl : lookupAssoc t_by kv.1 with
                | none => rw [hl] at heq2; cases heq2
                | some o =>
                  rw [hl] at heq2
                  cases o with
                  | none => cases heq2
                  | some od =>
                    simp only [Option.join] at heq2
                    cases heq2
                    rfl
              rcases sellerPctDict_mem _ _ _ ht (kv.1, some t_d)
                  (lookupAssoc_mem _ _ _ hjoin) with ⟨s2, hs2, _, _, hval2⟩
              refine ⟨rfl, rfl, e_d, t_d, rfl, rfl, ⟨s, hs, ?_⟩, ⟨s2, hs2, hval2.symm⟩⟩
              rw [← hval, heq1]
            · cases hi
          case _ => cases hi

theorem matchIssues_ok_not_orphan (ratio : String → String → Q) (esc : SourceRec)
    (prop : PropRec) (it : TaxItem) (l : List Issue)
    (h : matchIssues ratio esc prop it = Except.ok l) :
    ∀ i ∈ l, i.code ≠ "ORPHAN_TAX_FORM" := by
  intro i hi
  rw [matchIssues] at h
  cases hsb : saleBreakdownIssues esc it.form_data prop it.form_id with
  | error e => rw [hsb, except_bind_err] at h; cases h
  | ok sb =>
    rw [hsb, except_bind_ok] at h
    cases h
    simp only [List.mem_append] at hi
    rcases hi with ((((((((((((hi | hi) | hi) | hi) | hi) | hi) | hi) | hi) | hi) | hi) |
        hi) | hi) | hi) | hi
    · rw [(dateIssues_spec _ _ _ i hi).1]; decide
    · rw [(valueIssues_spec _ _ _ i hi).1]; decide
    · rw [(sellerIssues_spec _ _ _ i hi).1]; decide
    · rw [(buyerIssues_spec _ _ _ i hi).1]; decide
    · rw [(notaryIssues_spec _ _ _ i hi).1]; decide
    · rw [(protocolIssues_spec _ _ _ i hi).1]; decide
    · rw [(addressIssues_spec _ _ _ _ i hi).1]; decide
    · rw [(typeIssues_spec _ _ _ i hi).1]; decide
    · rw [(ptypeIssues_spec _ _ _ i hi).1]; decide
    · rw [(surfaceIssues_spec _ _ _ i hi).1]; decide
    · rw [(valorCatIssues_spec _ _ _ i hi).1]; decide
    · rw [(cuotaIssues_spec _ _ _ i hi).1]; decide
    · rw [(docnumIssues_spec _ _ _ i hi).1]; decide
    · rw [(saleBreakdownIssues_spec _ _ _ _ _ hsb i hi).1]; decide

theorem propReport_ok_not_orphan (ratio : String → String → Q)
    (gs : List (String × List TaxItem)) (esc : SourceRec) (escId : String)
    (prop : PropRec) (r : Report)
    (h : propReport ratio gs esc escId prop = Except.ok r) :
    ∀ i ∈ r.issues, i.code ≠ "ORPHAN_TAX_FORM" := by
  intro i hi
  cases hms : propMatches ratio gs (normalize_catastral_ref prop.ref_catastral) with
  | nil =>
    simp only [propReport, hms] at h
    cases h
    simp only [add_issue_issues, List.nil_append, List.mem_singleton] at hi
    subst hi
    simp [missingIssue]
  | cons m ms =>
    simp only [propReport, hms] at h
    cases hiss : mapMExcept (matchIssues ratio esc prop) (m :: ms) with
    | error e => rw [hiss, except_bind_err] at h; cases h
    | ok iss =>
      rw [hiss, except_bind_ok] at h
      cases h
      rw [foldl_add_issue_issues] at hi
      simp only [List.nil_append] at hi
      rw [mem_concatMap] at hi
      rcases hi with ⟨l2, hl2, hi⟩
      rcases mapMExcept_ok_mem _ _ _ hiss l2 hl2 with ⟨mt, hmt, hok⟩
      exact matchIssues_ok_not_orphan ratio esc prop mt l2 hok i hi

theorem escReports_ok_not_orphan (ratio : String → String → Q)
    (gs : List (String × List TaxItem)) (escs : List SourceRec) (rs : List Report)
    (h : escReports ratio gs escs = Except.ok rs) :
    ∀ r ∈ rs, ∀ i ∈ r.issues, i.code ≠ "ORPHAN_TAX_FORM" := by
  intro r hr
  rcases mapMExcept_ok_mem _ _ _ h r hr with ⟨ep, _, hok⟩
  exact propReport_ok_not_orphan ratio gs ep.1 (ep.1.document_number.getD "unk") ep.2 r hok

/-- C1 amended: a tax-form index key is excluded from orphan reporting
exactly when some deed claim EXACT-matches it (membership of `matched_refs`
coincides with the existence of a deed property whose normalised reference
equals the key, because fuzzy matches record the deed-side reference
instead); every key with no exact match — even one that was fuzzy-matched
and compared — yields one `ORPHAN_TAX_FORM` report per tax item under it,
with severity warning, and no other report carries that issue code. -/
theorem c1_exact_matched_keys_escape_orphans (ratio : String → String → Q)
    (data : CompInput) (reports : List Report)
    (h : compare_escritura_with_tax_forms ratio data = Except.ok reports) :
    ∀ p ∈ taxByCatastral data.tax_forms,
      (p.1 ∈ matchedRefs ratio (taxByCatastral data.tax_forms) data.escrituras ↔
        ∃ esc ∈ data.escrituras, ∃ pr ∈ esc.properties,
          normalize_catastral_ref pr.ref_catastral = p.1)
      ∧ (p.1 ∈ matchedRefs ratio (taxByCatastral data.tax_forms) data.escrituras →
          ∀ r ∈ reports, ¬ isOrphanReportFor r p.1)
      ∧ (p.1 ∉ matchedRefs ratio (taxByCatastral data.tax_forms) data.escrituras →
          ∀ it ∈ p.2, orphanReport p.1 it ∈ reports
            ∧ (orphanReport p.1 it).status = Severity.warning
            ∧ ∀ i ∈ (orphanReport p.1 it).issues,
                i.code = "ORPHAN_TAX_FORM" ∧ i.severity = Severity.warning) := by
  intro p hp
  rcases p with ⟨k, g⟩
  rcases compare_ok_decomp ratio data reports h with ⟨rs, hrs, hrep⟩
  have hkey := propMatches_key ratio data.tax_forms k g hp
  refine ⟨?_, ?_, ?_⟩
  · rw [matchedRefs_mem]
    constructor
    · rintro ⟨esc, hesc, pr, hpr, hnorm, _⟩
      exact ⟨esc, hesc, pr, hpr, hnorm⟩
    · rintro ⟨esc, hesc, pr, hpr, hnorm⟩
      exact ⟨esc, hesc, pr, hpr, hnorm, hkey.1 ▸ hkey.2⟩
  · intro hk r hr horf
    rw [hrep] at hr
    rcases List.mem_append.mp hr with hr | hr
    · rcases horf.2 with ⟨i, hi, hcode⟩
      exact escReports_ok_not_orphan ratio _ _ rs hrs r hr i hi hcode
    · rcases (orphanReports_mem _ _ r).mp hr with ⟨p2, _, hc2, it, _, hrq⟩
      have href : r.ref_catastral = p2.1 := by rw [hrq, orphanReport_ref]
      have hpk : p2.1 = k := by rw [← href, horf.1]
      rw [hpk] at hc2
      rw [← Bool.not_eq_true] at hc2
      exact hc2 ((contains_iff_mem _ _).mpr hk)
  · intro hk it hit
    refine ⟨?_, orphanReport_status k it, ?_⟩
    · rw [hrep]
      refine List.mem_append.mpr (Or.inr ?_)
      rw [orphanReports_mem]
      refine ⟨(k, g), hp, ?_, it, hit, rfl⟩
      rw [← Bool.not_eq_true]
      intro hc
      exact hk ((contains_iff_mem _ _).mp hc)
    · intro i hi
      rw [orphanReport_issues] at hi
      simp only [List.mem_singleton] at hi
      subst hi
      exact ⟨rfl, rfl⟩

/-- C1 witness: at the fuzzy-match scenario, the theorem yields the orphan
report for the fuzzy-matched key `AAAAAAAAAAAAAAY`. -/
theorem c1_exact_matched_keys_escape_orphans_witness :
    orphanReport "AAAAAAAAAAAAAAY"
        ⟨"F1", formY, { ref_catastral := some "AAAAAAAAAAAAAAY" }⟩
      ∈ (compare_escritura_with_tax_forms ratioZero fuzzyInput).toOption.getD [] := by
  exact ((c1_exact_matched_keys_escape_orphans ratioZero fuzzyInput
      ((compare_escritura_with_tax_forms ratioZero fuzzyInput).toOption.getD [])
      (by rfl)
      ("AAAAAAAAAAAAAAY", [⟨"F1", formY, { ref_catastral := some "AAAAAAAAAAAAAAY" }⟩])
      (by decide)).2.2 (by decide)
      ⟨"F1", formY, { ref_catastral := some "AAAAAAAAAAAAAAY" }⟩ (by decide)).1

theorem matchIssues_ok_not_missing (ratio : String → String → Q) (esc : SourceRec)
    (prop : PropRec) (it : TaxItem) (l : List Issue)
    (h : matchIssues ratio esc prop it = Except.ok l) :
    ∀ i ∈ l, i.code ≠ "MISSING_TAX_FORM" := by
  intro i hi
  rw [matchIssues] at h
  cases hsb : saleBreakdownIssues esc it.form_data prop it.form_id with
  | error e => rw [hsb, except_bind_err] at h; cases h
  | ok sb =>
    rw [hsb, except_bind_ok] at h
    cases h
    simp only [List.mem_append] at hi
    rcases hi with ((((((((((((hi | hi) | hi) | hi) | hi) | hi) | hi) | hi) | hi) | hi) |
        hi) | hi) | hi) | hi
    · rw [(dateIssues_spec _ _ _ i hi).1]; decide
    · rw [(valueIssues_spec _ _ _ i hi).1]; decide
    · rw [(sellerIssues_spec _ _ _ i hi).1]; decide
    · rw [(buyerIssues_spec _ _ _ i hi).1]; decide
    · rw [(notaryIssues_spec _ _ _ i hi).1]; decide
    · rw [(protocolIssues_spec _ _ _ i hi).1]; decide
    · rw [(addressIssues_spec _ _ _ _ i hi).1]; decide
    · rw [(typeIssues_spec _ _ _ i hi).1]; decide
    · rw [(ptypeIssues_spec _ _ _ i hi).1]; decide
    · rw [(surfaceIssues_spec _ _ _ i hi).1]; decide
    · rw [(valorCatIssues_spec _ _ _ i hi).1]; decide
    · rw [(cuotaIssues_spec _ _ _ i hi).1]; decide
    · rw [(docnumIssues_spec _ _ _ i hi).1]; decide
    · rw [(saleBreakdownIssues_spec _ _ _ _ _ hsb i hi).1]; decide

theorem propReport_missing_spec (ratio : String → String → Q)
    (gs : List (String × List TaxItem)) (esc : SourceRec) (escId : String)
    (prop : PropRec) (r : Report)
    (h : propReport ratio gs esc escId prop = Except.ok r) :
    ∀ i ∈ r.issues, i.code = "MISSING_TAX_FORM" →
      i.escritura_value = normalize_catastral_ref prop.ref_catastral
      ∧ i.tax_form_value = strOpt none := by
  intro i hi hcode
  cases hms : propMatches ratio gs (normalize_catastral_ref prop.ref_catastral) with
  | nil =>
    simp only [propReport, hms] at h
    cases h
    simp only [add_issue_issues, List.nil_append, List.mem_singleton] at hi
    subst hi
    exact ⟨rfl, rfl⟩
  | cons m ms =>
    simp only [propReport, hms] at h
    cases hiss : mapMExcept (matchIssues ratio esc prop) (m :: ms) with
    | error e => rw [hiss, except_bind_err] at h; cases h
    | ok iss =>
      rw [hiss, except_bind_ok] at h
      cases h
      rw [foldl_add_issue_issues] at hi
      simp only [List.nil_append] at hi
      rw [mem_concatMap] at hi
      rcases hi with ⟨l2, hl2, hi⟩
      rcases mapMExcept_ok_mem _ _ _ hiss l2 hl2 with ⟨mt, hmt, hok⟩
      exact absurd hcode (matchIssues_ok_not_missing ratio esc prop mt l2 hok i hi)

/-- C6 amended: most rules record the raw, pre-normalisation values — date,
declared value, notary, protocol, address, type descriptor, type code,
surface area, valor catastral, ownership shares and document numbers all
record the input record values — but the seller/buyer set-difference issues
record the lists of NORMALISED tax IDs, `MISSING_TAX_FORM` and
`ORPHAN_TAX_FORM` record the normalised cadastral reference, and the
sale-breakdown issues record the string renderings of the parsed decimals. -/
theorem c6_raw_values_except_seller_like (ratio : String → String → Q)
    (esc form : SourceRec) (prop tax_prop : PropRec) (fid escId : String)
    (gs : List (String × List TaxItem)) (r : Report) (k : String) (it : TaxItem)
    (l : List Issue) :
    (∀ i ∈ dateIssues esc form fid,
      i.escritura_value = strOpt esc.date_of_sale
      ∧ i.tax_form_value = strOpt form.date_of_sale)
    ∧ (∀ i ∈ valueIssues prop tax_prop fid,
      i.escritura_value = strOpt prop.declared_value
      ∧ i.tax_form_value = strOpt tax_prop.declared_value)
    ∧ (∀ i ∈ notaryIssues esc form fid,
      i.escritura_value = strOpt (pyOrOpt esc.notary_name_nested esc.notary_name)
      ∧ i.tax_form_value = strOpt (pyOrOpt form.notary_name_nested form.notary_name))
    ∧ (∀ i ∈ protocolIssues esc form fid,
      i.escritura_value = strOpt esc.protocol_number
      ∧ i.tax_form_value = strOpt form.protocol_number)
    ∧ (∀ i ∈ addressIssues ratio prop tax_prop fid,
      i.escritura_value = strOpt prop.address
      ∧ i.tax_form_value = strOpt tax_prop.address)
    ∧ (∀ i ∈ typeIssues prop tax_prop fid,
      i.escritura_value = strOpt prop.type ∧ i.tax_form_value = strOpt tax_prop.type)
    ∧ (∀ i ∈ ptypeIssues prop tax_prop fid,
      i.escritura_value = strOpt prop.property_type
      ∧ i.tax_form_value = strOpt tax_prop.property_type)
    ∧ (∀ i ∈ surfaceIssues prop tax_prop fid,
      i.escritura_value = strOpt (supGet prop i.field)
      ∧ i.tax_form_value = strOpt (supGet tax_prop i.field))
    ∧ (∀ i ∈ valorCatIssues prop tax_prop fid,
      i.escritura_value = strOpt prop.valor_catastral
      ∧ i.tax_form_value = strOpt tax_prop.valor_catastral)
    ∧ (∀ i ∈ cuotaIssues prop tax_prop fid,
      ∃ p ∈ prop.ownership_distribution, ∃ t_pct,
        lookupAssoc tax_prop.ownership_distribution p.1 = some t_pct
        ∧ i.escritura_value = p.2 ∧ i.tax_form_value = t_pct)
    ∧ (∀ i ∈ docnumIssues esc form fid,
      i.escritura_value = strOpt esc.document_number
      ∧ i.tax_form_value = strOpt form.document_number)
    ∧ (∀ i ∈ sellerIssues esc form fid,
      i.escritura_value = strList (sellerSet esc.sellers)
      ∧ i.tax_form_value = strList (sellerSet form.sellers))
    ∧ (∀ i ∈ buyerIssues esc form fid,
      i.escritura_value = strList (buyerSet esc.buyers)
      ∧ i.tax_form_value = strList (buyerSet form.buyers))
    ∧ (propReport ratio gs esc escId prop = Except.ok r →
      ∀ i ∈ r.issues, i.code = "MISSING_TAX_FORM" →
        i.escritura_value = normalize_catastral_ref prop.ref_catastral
        ∧ i.tax_form_value = strOpt none)
    ∧ (∀ i ∈ (orphanReport k it).issues,
      i.escritura_value = strOpt none ∧ i.tax_form_value = k)
    ∧ (saleBreakdownIssues esc form prop fid = Except.ok l →
      ∀ i ∈ l, ∃ d1 d2 : Dec,
        i.escritura_value = d1.lit ∧ i.tax_form_value = d2.lit
        ∧ (∃ s ∈ esc.sale_breakdown, parse_decimal s.percentage_sold = some d1)
        ∧ (∃ s ∈ form.sale_breakdown, parse_decimal s.percentage_sold = some d2)) := by
  refine ⟨fun i hi => ⟨(dateIssues_spec esc form fid i hi).2.2.1,
      (dateIssues_spec esc form fid i hi).2.2.2⟩,
    fun i hi => ⟨(valueIssues_spec prop tax_prop fid i hi).2.2.1,
      (valueIssues_spec prop tax_prop fid i hi).2.2.2⟩,
    fun i hi => ⟨(notaryIssues_spec esc form fid i hi).2.2.1,
      (notaryIssues_spec esc form fid i hi).2.2.2⟩,
    fun i hi => ⟨(protocolIssues_spec esc form fid i hi).2.2.1,
      (protocolIssues_spec esc form fid i hi).2.2.2⟩,
    fun i hi => ⟨(addressIssues_spec ratio prop tax_prop fid i hi).2.2.1,
      (addressIssues_spec ratio prop tax_prop fid i hi).2.2.2⟩,
    fun i hi => ⟨(typeIssues_spec prop tax_prop fid i hi).2.2.1,
      (typeIssues_spec prop tax_prop fid i hi).2.2.2⟩,
    fun i hi => ⟨(ptypeIssues_spec prop tax_prop fid i hi).2.2.1,
      (ptypeIssues_spec prop tax_prop fid i hi).2.2.2⟩,
    fun i hi => ⟨(surfaceIssues_spec prop tax_prop fid i hi).2.2.1,
      (surfaceIssues_spec prop tax_prop fid i hi).2.2.2⟩,
    fun i hi => ⟨(valorCatIssues_spec prop tax_prop fid i hi).2.2.1,
      (valorCatIssues_spec prop tax_prop fid i hi).2.2.2⟩,
    fun i hi => (cuotaIssues_spec prop tax_prop fid i hi).2.2,
    fun i hi => ⟨(docnumIssues_spec esc form fid i hi).2.2.1,
      (docnumIssues_spec esc form fid i hi).2.2.2⟩,
    fun i hi => ⟨(sellerIssues_spec esc form fid i hi).2.2.1,
      (sellerIssues_spec esc form fid i hi).2.2.2⟩,
    fun i hi => ⟨(buyerIssues_spec esc form fid i hi).2.2.1,
      (buyerIssues_spec esc form fid i hi).2.2.2⟩,
    fun h => propReport_missing_spec ratio gs esc escId prop r h,
    ?_,
    fun h i hi => (saleBreakdownIssues_spec esc form prop fid l h i hi).2.2⟩
  intro i hi
  rw [orphanReport_issues] at hi
  simp only [List.mem_singleton] at hi
  subst hi
  exact ⟨rfl, rfl⟩

/-- C6 witness: at the concrete seller scenario, the theorem gives that the
seller issue records the normalised NIF list. -/
theorem c6_raw_values_except_seller_like_witness :
    (sellerIssue escSeller formX "E1").escritura_value
      = strList (sellerSet escSeller.sellers) := by
  exact ((c6_raw_values_except_seller_like ratioZero escSeller formX
      ({} : PropRec) ({} : PropRec) "E1" "E1" []
      ⟨"", "", Severity.ok, [], []⟩ "" ⟨"", formX, ({} : PropRec)⟩
      []).2.2.2.2.2.2.2.2.2.2.2.1
      (sellerIssue escSeller formX "E1") (by decide)).1

theorem lookupAssoc_cons_self {α : Type} (k : String) (v : α) (t : List (String × α)) :
    lookupAssoc ((k, v) :: t) k = some v := by
  rw [lookupAssoc, List.find?_cons_of_pos _ (by simp)]

theorem lookupAssoc_cons_ne {α : Type} (k0 k : String) (v : α) (t : List (String × α))
    (h : k0 ≠ k) : lookupAssoc ((k0, v) :: t) k = lookupAssoc t k := by
  rw [lookupAssoc, List.find?_cons_of_neg _ (by simpa using h), lookupAssoc]

theorem lookupAssoc_eq_none_of_not_mem {α : Type} (d : List (String × α)) (k : String)
    (h : k ∉ d.map Prod.fst) : lookupAssoc d k = none := by
  induction d with
  | nil => rfl
  | cons p t ih =>
    rcases p with ⟨k0, v0⟩
    simp only [List.map_cons, List.mem_cons] at h
    push_neg at h
    rw [lookupAssoc_cons_ne k0 k v0 t (fun he => h.1 he.symm)]
    exact ih h.2

theorem exists_lookupAssoc_of_mem_keys {α : Type} (d : List (String × α)) (k : String)
    (h : k ∈ d.map Prod.fst) : ∃ v, lookupAssoc d k = some v := by
  induction d with
  | nil => cases h
  | cons p t ih =>
    rcases p with ⟨k0, v0⟩
    by_cases hk : k0 = k
    · subst hk
      exact ⟨v0, lookupAssoc_cons_self k0 v0 t⟩
    · rw [lookupAssoc_cons_ne k0 k v0 t hk]
      simp only [List.map_cons, List.mem_cons] at h
      rcases h with h | h
      · exact absurd h.symm hk
      · exact ih h

theorem lookupAssoc_some_mem_keys {α : Type} (d : List (String × α)) (k : String) (v : α)
    (h : lookupAssoc d k = some v) : k ∈ d.map Prod.fst := by
  by_contra hk
  rw [lookupAssoc_eq_none_of_not_mem d k hk] at h
  cases h

theorem dictInsert_keys_of_mem {α : Type} (d : List (String × α)) (k : String) (v : α)
    (h : k ∈ d.map Prod.fst) :
    (dictInsert d k v).map Prod.fst = d.map Prod.fst := by
  induction d with
  | nil => cases h
  | cons p t ih =>
    rcases p with ⟨k0, v0⟩
    by_cases hk : k0 = k
    · subst hk
      simp [dictInsert]
    · simp only [dictInsert, if_neg hk, List.map_cons, List.cons.injEq, true_and]
      simp only [List.map_cons, List.mem_cons] at h
      rcases h with h | h
      · exact absurd h.symm hk
      · exact ih h

theorem lookupAssoc_dictInsert_self {α : Type} (d : List (String × α)) (k : String) (v : α) :
    lookupAssoc (dictInsert d k v) k = some v := by
  induction d with
  | nil => exact lookupAssoc_cons_self k v []
  | cons p t ih =>
    rcases p with ⟨k0, v0⟩
    by_cases hk : k0 = k
    · subst hk
      simp only [dictInsert, if_pos rfl]
      exact lookupAssoc_cons_self k0 v t
    · simp only [dictInsert, if_neg hk]
      rw [lookupAssoc_cons_ne k0 k v0 _ hk]
      exact ih

theorem lookupAssoc_dictInsert_ne {α : Type} (d : List (String × α)) (k k2 : String) (v : α)
    (h : k2 ≠ k) : lookupAssoc (dictInsert d k v) k2 = lookupAssoc d k2 := by
  induction d with
  | nil =>
    rw [show dictInsert ([] : List (String × α)) k v = [(k, v)] from rfl]
    rw [lookupAssoc_cons_ne k k2 v [] (Ne.symm h)]
  | cons p t ih =>
    rcases p with ⟨k0, v0⟩
    by_cases hk : k0 = k
    · subst hk
      rw [show dictInsert ((k0, v0) :: t) k0 v = (k0, v) :: t from by simp [dictInsert]]
      rw [lookupAssoc_cons_ne k0 k2 v t (Ne.symm h), lookupAssoc_cons_ne k0 k2 v0 t (Ne.symm h)]
    · rw [show dictInsert ((k0, v0) :: t) k v = (k0, v0) :: dictInsert t k v from by
          simp [dictInsert, hk]]
      by_cases h2 : k0 = k2
      · subst h2
        rw [lookupAssoc_cons_self, lookupAssoc_cons_self]
      · rw [lookupAssoc_cons_ne _ _ _ _ h2, lookupAssoc_cons_ne _ _ _ _ h2]
        exact ih

theorem assoc_ext {α : Type} (c : List (String × α)) :
    ∀ m : List (String × α), m.map Prod.fst = c.map Prod.fst →
      (c.map Prod.fst).Nodup →
      (∀ k ∈ c.map Prod.fst, lookupAssoc m k = lookupAssoc c k) → m = c := by
  induction c with
  | nil =>
    intro m hk _ _
    exact List.map_eq_nil_iff.mp hk
  | cons p t ih =>
    intro m hk hnd hl
    rcases p with ⟨k0, v0⟩
    cases m with
    | nil => cases hk
    | cons q m2 =>
      rcases q with ⟨k1, v1⟩
      simp only [List.map_cons, List.cons.injEq] at hk
      rcases hk with ⟨hk1, hkt⟩
      subst hk1
      have h0 := hl k1 (List.mem_cons_self _ _)
      rw [lookupAssoc_cons_self, lookupAssoc_cons_self] at h0
      cases h0
      simp only [List.map_cons, List.nodup_cons] at hnd
      have htail : m2 = t := by
        refine ih m2 hkt hnd.2 (fun k hkm => ?_)
        have hne : k1 ≠ k := fun he => hnd.1 (he ▸ hkm)
        have := hl k (List.mem_cons_of_mem _ hkm)
        rwa [lookupAssoc_cons_ne _ _ _ _ hne, lookupAssoc_cons_ne _ _ _ _ hne] at this
      rw [htail]
theorem filter_replicate {α : Type} (p : α → Bool) (a : α) (k : Nat) :
    (List.replicate k a).filter p = if p a then List.replicate k a else [] := by
  induction k with
  | zero => simp
  | succ k ih =>
    rw [List.replicate_succ, List.filter_cons]
    cases hp : p a
    · simp [hp, ih]
    · simp [hp, ih]

theorem collectField_replicate (k : Nat) (c : Chunk) (f : String) :
    collectField (List.replicate k c) f
      = if skipVal (chunkGet c f) then [] else List.replicate k (chunkGet c f) := by
  rw [collectField, List.map_replicate, filter_replicate]
  cases hs : skipVal (chunkGet c f) <;> simp [hs]

theorem pyDedupAux_replicate_mem (s : String) (seen : List String) (h : s ∈ seen) :
    ∀ k, pyDedupAux seen (List.replicate k s) = [] := by
  intro k
  induction k with
  | zero => rfl
  | succ k ih => rw [List.replicate_succ, pyDedupAux, if_pos h]; exact ih

theorem pyDedupKeys_replicate (k : Nat) (s : String) :
    pyDedupKeys (List.replicate (k + 1) s) = [s] := by
  rw [List.replicate_succ, pyDedupKeys, pyDedupAux, if_neg (List.not_mem_nil s),
    pyDedupAux_replicate_mem s [s] (List.mem_singleton.mpr rfl)]

theorem voteNonDict_replicate (k : Nat) (v : MVal) :
    voteNonDict (List.replicate (k + 1) v) = v := by
  rw [List.replicate_succ]
  simp only [voteNonDict]
  rw [show (v :: List.replicate k v).map pyStr = List.replicate (k + 1) (pyStr v) from by
    rw [← List.replicate_succ]; exact List.map_replicate]
  rw [pyDedupKeys_replicate]
  simp

theorem repeatConcat_nil {α : Type} (k : Nat) : repeatConcat k ([] : List α) = [] := by
  induction k with
  | zero => rfl
  | succ k ih => rw [repeatConcat, List.nil_append]; exact ih

theorem repeatConcat_cons_ne_nil {α : Type} (k : Nat) (a : α) (t : List α) :
    repeatConcat (k + 1) (a :: t) ≠ [] := by
  rw [repeatConcat, List.cons_append]
  exact List.cons_ne_nil a _

theorem mergeListField_foldl (xs : List MVal) (k : Nat) (acc : List MVal) :
    (List.replicate k (MVal.listv xs)).foldl
        (fun acc v =>
          match v with
          | MVal.listv ys => acc ++ ys
          | _ => acc ++ [v]) acc
      = acc ++ repeatConcat k xs := by
  induction k generalizing acc with
  | zero => rw [repeatConcat]; simp
  | succ k ih =>
    rw [List.replicate_succ, List.foldl_cons, repeatConcat]
    show (List.replicate k (MVal.listv xs)).foldl _ (acc ++ xs) = _
    rw [ih (acc ++ xs), List.append_assoc]

theorem mergeListField_replicate (k : Nat) (xs : List MVal) :
    mergeListField (List.replicate k (MVal.listv xs)) = repeatConcat k xs := by
  rw [mergeListField, mergeListField_foldl, List.nil_append]

theorem keys_map_pair {α β : Type} (l : List (String × α)) (g : String × α → β) :
    (l.map (fun x => (x.1, g x))).map Prod.fst = l.map Prod.fst := by
  induction l with
  | nil => rfl
  | cons a t ih => simp only [List.map_cons, ih]

theorem lookupAssoc_map_pair {α β : Type} (l : List (String × α)) (g : String × α → β)
    (hnd : (l.map Prod.fst).Nodup) (fb : String × α) (hfb : fb ∈ l) :
    lookupAssoc (l.map (fun x => (x.1, g x))) fb.1 = some (g fb) := by
  induction l with
  | nil => cases hfb
  | cons a t ih =>
    simp only [List.map_cons, List.nodup_cons] at hnd
    rcases List.mem_cons.mp hfb with rfl | hfb2
    · exact lookupAssoc_cons_self fb.1 (g fb) _
    · have hne : a.1 ≠ fb.1 := by
        intro he
        exact hnd.1 (he ▸ List.mem_map_of_mem Prod.fst hfb2)
      rw [List.map_cons, lookupAssoc_cons_ne a.1 fb.1 (g a) _ hne]
      exact ih hnd.2 hfb2
theorem mergeField_replicate_scalar (n : Nat) (c : Chunk) (f : String)
    (hs : scalarOkB (chunkGet c f) = true) :
    mergeField false (collectField (List.replicate (n + 1) c) f) = chunkGet c f := by
  rw [collectField_replicate]
  cases hcv : chunkGet c f with
  | null => simp [skipVal, mergeField]
  | str s =>
    rw [hcv] at hs
    simp only [scalarOkB, bne_iff_ne, ne_eq, decide_eq_true_eq] at hs
    rw [if_neg (by simp [skipVal, hs])]
    have h1 : mergeField false (MVal.str s :: List.replicate n (MVal.str s))
        = voteNonDict (MVal.str s :: List.replicate n (MVal.str s)) := by
      simp [mergeField, isDictM]
    rw [List.replicate_succ, h1, ← List.replicate_succ, voteNonDict_replicate]
  | listv xs => rw [hcv] at hs; simp [scalarOkB] at hs
  | dictv xs => rw [hcv] at hs; simp [scalarOkB] at hs

theorem mergeField_replicate_list (n : Nat) (c : Chunk) (f : String) (xs : List MVal)
    (hcv : chunkGet c f = MVal.listv xs) :
    mergeField true (collectField (List.replicate (n + 1) c) f)
      = MVal.listv (repeatConcat (n + 1) xs) := by
  rw [collectField_replicate, hcv]
  cases xs with
  | nil => simp [skipVal, mergeField, repeatConcat_nil]
  | cons a t =>
    rw [if_neg (by simp [skipVal])]
    have h1 : (List.replicate (n + 1) (MVal.listv (a :: t))).isEmpty = false := by
      rw [List.replicate_succ]; rfl
    simp only [mergeField, h1, Bool.false_eq_true, if_false, if_true]
    rw [mergeListField_replicate]

theorem postUpdate_keyed (n : Nat) (c : Chunk) (mkeys : List String) (m : Chunk)
    (key : String) (dedup : List MVal → Except String (List MVal))
    (hkeys : m.map Prod.fst = mkeys)
    (hlk : key ∈ mkeys → ∃ xs, chunkGet c key = MVal.listv xs
      ∧ lookupAssoc m key = some (MVal.listv (repeatConcat (n + 1) xs)))
    (hded : ∀ xs, chunkGet c key = MVal.listv xs → xs ≠ [] →
      dedup (repeatConcat (n + 1) xs) = Except.ok xs) :
    ∃ m2, postUpdate m key dedup = Except.ok m2
      ∧ m2.map Prod.fst = mkeys
      ∧ (∀ k, k ≠ key → lookupAssoc m2 k = lookupAssoc m k)
      ∧ (key ∈ mkeys → lookupAssoc m2 key = some (chunkGet c key)) := by
  by_cases hk : key ∈ mkeys
  · obtain ⟨xs, hcv, hlkm⟩ := hlk hk
    cases xs with
    | nil =>
      refine ⟨m, ?_, hkeys, fun k _ => rfl, fun _ => ?_⟩
      · simp only [postUpdate, hlkm, repeatConcat_nil, truthyM, List.isEmpty_nil,
          Bool.not_true, Bool.false_eq_true, if_false]
      · rw [hlkm, hcv, repeatConcat_nil]
    | cons a t =>
      have hded2 := hded (a :: t) hcv (List.cons_ne_nil a t)
      have htr : truthyM (MVal.listv (repeatConcat (n + 1) (a :: t))) = true := by
        rw [repeatConcat, List.cons_append]; rfl
      refine ⟨dictInsert m key (MVal.listv (a :: t)), ?_, ?_, ?_, fun _ => ?_⟩
      · simp only [postUpdate, hlkm, htr, if_true, hded2, except_bind_ok]
      · rw [dictInsert_keys_of_mem m key _ (by rw [hkeys]; exact hk)]
        exact hkeys
      · intro k hkne
        exact lookupAssoc_dictInsert_ne m key k _ hkne
      · rw [lookupAssoc_dictInsert_self, hcv]
  · have hnone : lookupAssoc m key = none :=
      lookupAssoc_eq_none_of_not_mem m key (by rw [hkeys]; exact hk)
    refine ⟨m, ?_, hkeys, fun k _ => rfl, fun hmem => absurd hmem hk⟩
    simp only [postUpdate, hnone]
/-- C9 amended: merging `n + 1` identical copies of a chunk — in particular
a singleton list — returns the chunk unchanged only up to the deduplication
post-passes: it is exact when the chunk lists the model fields with distinct
names, every scalar field is absent or a non-blank string, every list field
outside `sellers`/`buyers`/`properties` is empty, and the applicable
deduplication pass maps the `n + 1`-fold concatenation of each special list
field back to the original list. -/
theorem c9_unanimous_merge_identity (n : Nat) (model_fields : List (String × Bool))
    (c : Chunk)
    (h1 : c.map Prod.fst = model_fields.map Prod.fst)
    (h2 : (model_fields.map Prod.fst).Nodup)
    (h3 : ∀ fb ∈ model_fields, fb.2 = false → scalarOkB (chunkGet c fb.1) = true)
    (h4 : ∀ fb ∈ model_fields, fb.2 = true → isListVal (chunkGet c fb.1) = true)
    (h5 : ∀ fb ∈ model_fields, fb.2 = true → fb.1 ∉ specialNames →
      isEmptyListVal (chunkGet c fb.1) = true)
    (h6 : ∀ fb ∈ model_fields, fb.1 ∈ specialNames → fb.2 = true)
    (h7 : ∀ xs, chunkGet c "sellers" = MVal.listv xs → xs ≠ [] →
      deduplicate_persons (repeatConcat (n + 1) xs) = Except.ok xs)
    (h8 : ∀ xs, chunkGet c "buyers" = MVal.listv xs → xs ≠ [] →
      deduplicate_persons (repeatConcat (n + 1) xs) = Except.ok xs)
    (h9 : ∀ xs, chunkGet c "properties" = MVal.listv xs → xs ≠ [] →
      deduplicate_properties (repeatConcat (n + 1) xs) = Except.ok xs) :
    merge_chunk_extractions model_fields (List.replicate (n + 1) c) = Except.ok c := by
  have hglook : ∀ fb ∈ model_fields,
      lookupAssoc (model_fields.map (fun fb =>
          (fb.1, mergeField fb.2 (collectField (List.replicate (n + 1) c) fb.1)))) fb.1
        = some (mergedValue n c fb.1) := by
    intro fb hfb
    rw [lookupAssoc_map_pair model_fields _ h2 fb hfb]
    congr 1
    cases hb : fb.2 with
    | false =>
      rw [mergeField_replicate_scalar n c fb.1 (h3 fb hfb hb)]
      have hs := h3 fb hfb hb
      cases hcv : chunkGet c fb.1 with
      | null => simp only [mergedValue, hcv]
      | str s => simp only [mergedValue, hcv]
      | dictv xs => simp only [mergedValue, hcv]
      | listv xs => rw [hcv] at hs; simp [scalarOkB] at hs
    | true =>
      have hl := h4 fb hfb hb
      cases hcv : chunkGet c fb.1 with
      | listv xs =>
        rw [mergeField_replicate_list n c fb.1 xs hcv]
        simp only [mergedValue, hcv]
      | null => rw [hcv] at hl; simp [isListVal] at hl
      | str s => rw [hcv] at hl; simp [isListVal] at hl
      | dictv xs => rw [hcv] at hl; simp [isListVal] at hl
  have hkeysM : (model_fields.map (fun fb =>
      (fb.1, mergeField fb.2 (collectField (List.replicate (n + 1) c) fb.1)))).map Prod.fst
      = model_fields.map Prod.fst := keys_map_pair model_fields _
  have hlkM : ∀ key, key ∈ model_fields.map Prod.fst → key ∈ specialNames →
      ∃ xs, chunkGet c key = MVal.listv xs
        ∧ lookupAssoc (model_fields.map (fun fb =>
            (fb.1, mergeField fb.2 (collectField (List.replicate (n + 1) c) fb.1)))) key
          = some (MVal.listv (repeatConcat (n + 1) xs)) := by
    intro key hmem hsp
    obtain ⟨fb, hfb, hfb1⟩ := List.mem_map.mp hmem
    subst hfb1
    have hb := h6 fb hfb hsp
    have hl := h4 fb hfb hb
    cases hcv : chunkGet c fb.1 with
    | listv xs =>
      refine ⟨xs, rfl, ?_⟩
      rw [hglook fb hfb]
      simp only [mergedValue, hcv]
    | null => rw [hcv] at hl; simp [isListVal] at hl
    | str s => rw [hcv] at hl; simp [isListVal] at hl
    | dictv xs => rw [hcv] at hl; simp [isListVal] at hl
  obtain ⟨m1, hp1, hk1, hne1, hkey1⟩ :=
    postUpdate_keyed n c (model_fields.map Prod.fst)
      (model_fields.map (fun fb =>
        (fb.1, mergeField fb.2 (collectField (List.replicate (n + 1) c) fb.1))))
      "sellers" deduplicate_persons hkeysM
      (fun hmem => hlkM "sellers" hmem (by decide)) h7
  obtain ⟨m2, hp2, hk2, hne2, hkey2⟩ :=
    postUpdate_keyed n c (model_fields.map Prod.fst) m1 "buyers" deduplicate_persons hk1
      (fun hmem => by
        obtain ⟨xs, hcv, hlm⟩ := hlkM "buyers" hmem (by decide)
        exact ⟨xs, hcv, by rw [hne1 "buyers" (by decide)]; exact hlm⟩) h8
  obtain ⟨m3, hp3, hk3, hne3, hkey3⟩ :=
    postUpdate_keyed n c (model_fields.map Prod.fst) m2 "properties"
      deduplicate_properties hk2
      (fun hmem => by
        obtain ⟨xs, hcv, hlm⟩ := hlkM "properties" hmem (by decide)
        exact ⟨xs, hcv, by
          rw [hne2 "properties" (by decide), hne1 "properties" (by decide)]
          exact hlm⟩) h9
  have hfinal : m3 = c := by
    refine assoc_ext c m3 ?_ ?_ ?_
    · rw [hk3, h1]
    · rw [h1]; exact h2
    · intro k hkc
      have hkm : k ∈ model_fields.map Prod.fst := h1 ▸ hkc
      obtain ⟨v, hv⟩ := exists_lookupAssoc_of_mem_keys c k hkc
      have hcg : chunkGet c k = v := by rw [chunkGet, hv]
      rw [hv, ← hcg]
      by_cases hsp : k ∈ specialNames
      · simp only [specialNames, List.mem_cons, List.not_mem_nil, or_false] at hsp
        rcases hsp with rfl | rfl | rfl
        · rw [hne3 "sellers" (by decide), hne2 "sellers" (by decide)]
          exact hkey1 hkm
        · rw [hne3 "buyers" (by decide)]
          exact hkey2 hkm
        · exact hkey3 hkm
      · obtain ⟨fb, hfb, hfb1⟩ := List.mem_map.mp hkm
        subst hfb1
        rw [hne3 fb.1 (fun he => hsp (by rw [he]; decide)),
          hne2 fb.1 (fun he => hsp (by rw [he]; decide)),
          hne1 fb.1 (fun he => hsp (by rw [he]; decide)),
          hglook fb hfb]
        congr 1
        cases hb : fb.2 with
        | false =>
          have hs := h3 fb hfb hb
          cases hcv : chunkGet c fb.1 with
          | null => simp only [mergedValue, hcv]
          | str s => simp only [mergedValue, hcv]
          | dictv xs => simp only [mergedValue, hcv]
          | listv xs => rw [hcv] at hs; simp [scalarOkB] at hs
        | true =>
          have he := h5 fb hfb hb hsp
          cases hcv : chunkGet c fb.1 with
          | listv xs =>
            cases xs with
            | nil => simp only [mergedValue, hcv, repeatConcat_nil]
            | cons a t => rw [hcv] at he; simp [isEmptyListVal] at he
          | null => rw [hcv] at he; simp [isEmptyListVal] at he
          | str s => rw [hcv] at he; simp [isEmptyListVal] at he
          | dictv xs => rw [hcv] at he; simp [isEmptyListVal] at he
  simp only [merge_chunk_extractions]
  rw [hp1]
  simp only [except_bind_ok]
  rw [hp2]
  simp only [except_bind_ok]
  rw [hp3]
  simp only [except_bind_ok, hfinal]
/-- C9 witness: merging two identical copies of the concrete well-formed
chunk returns the chunk unchanged. -/
theorem c9_unanimous_merge_identity_witness :
    merge_chunk_extractions unanimousModel (List.replicate 2 unanimousChunk)
      = Except.ok unanimousChunk := by
  exact c9_unanimous_merge_identity 1 unanimousModel unanimousChunk
    (by decide) (by decide) (by decide) (by decide) (by decide) (by decide)
    (fun xs hxs _ => by
      have hxs2 : MVal.listv [anaPerson] = MVal.listv xs := hxs
      cases MVal.listv.inj hxs2
      rfl)
    (fun xs hxs _ => by
      have hxs2 : MVal.null = MVal.listv xs := hxs
      cases hxs2)
    (fun xs hxs _ => by
      have hxs2 : MVal.listv [refProp] = MVal.listv xs := hxs
      cases MVal.listv.inj hxs2
      rfl)

end Spec2Proof
